import Mathlib

/-!
Verification of the matching core of the gyroscope-aided feature tracker
(`GyroTracker::track` / `GyroTracker::matchFeatures` in
`aslam_cv_tracker/src/feature-tracker-gyro.cc`).

The C++ code is shallowly embedded: pixel coordinates (C++ `double`) become
exact rationals, C++ `int` becomes `Int`, machine bytes become `Nat` (< 256),
descriptor byte buffers become `List Nat`, `std::vector<bool>` flag arrays
become functions `Nat → Bool`, and each loop becomes a structurally recursive
function or a fold.  The helper data computed by `GyroTrackerMatchingData`
(predicted keypoint positions and the row-sorted keypoint array), the frame
accessors and the configuration constants live outside the translated source
file; they are taken as inputs of the model, with their documented properties
(e.g. sortedness by row) as hypotheses.
-/

namespace GyroTracker

/-- C++ truncating conversion from `double` to `int` (rounds toward zero),
used for every implicit float-to-int conversion in `matchFeatures`. -/
def cppTrunc (q : ℚ) : ℤ :=
  if q < 0 then -⌊-q⌋ else ⌊q⌋

/-- The call-site lambda `clamp(lower, upper, in)` in `matchFeatures`
(line 99): `std::min(std::max(in, lower), upper)`. -/
def clamp (lower upper a : ℤ) : ℤ :=
  min (max a lower) upper

/-- Inner loop of `hammingDistance512` (lines 76-79): Kernighan's bit count,
`while (val) { ++distance; val &= val - 1; }`.  The loop runs at most `val`
iterations because `val` strictly decreases, so a fuel argument initialized
to the starting value makes the recursion structural. -/
def popcntLoop : Nat → Nat → Nat
  | 0, _ => 0
  | fuel + 1, val => if val = 0 then 0 else 1 + popcntLoop fuel (val &&& (val - 1))

/-- Number of one bits accumulated by the `while (val)` loop of
`hammingDistance512` for a byte value `val`. -/
def popcnt (val : Nat) : Nat := popcntLoop val val

/-- Reference bit count: recursion over the binary representation. -/
def bitCount : Nat → Nat
  | 0 => 0
  | v + 1 => bitCount ((v + 1) / 2) + ((v + 1) % 2)
decreasing_by exact Nat.div_lt_self (Nat.succ_pos v) (by omega)

/-- The descriptor comparator `hammingDistance512` (lines 71-83): for each of
the `kdescriptorSizeBytes` byte positions, XOR the two bytes and count the one
bits of the result, accumulating the total. -/
def hammingDistance512 (descriptorSizeBytes : Nat) (x y : List Nat) : Nat :=
  ((List.range descriptorSizeBytes).map fun i => popcnt ((x.getD i 0) ^^^ (y.getD i 0))).sum

/-- Stated from the spec: the number of differing bits between two descriptors
of `L` bytes, reading bit `j` of a descriptor as bit `j % 8` of byte `j / 8`. -/
def numDiffBits (L : Nat) (x y : List Nat) : Nat :=
  (List.range (8 * L)).countP fun j =>
    ((x.getD (j / 8) 0).testBit (j % 8)) != ((y.getD (j / 8) 0).testBit (j % 8))

/-- One entry of `GyroTrackerMatchingData::keypoints_kp1_by_y` (declared
outside the translated file): the original frame-(k+1) keypoint index together
with its 2D pixel measurement, column `mx` = `measurement(0)` and row
`my` = `measurement(1)`. -/
structure KeypointData where
  index : Nat
  mx : ℚ
  my : ℚ
deriving DecidableEq

/-- Sortedness by row of `keypoints_kp1_by_y`.  Modelled from the spec: the
matching-data helper sorts the target keypoints ascending by row coordinate. -/
def SortedByY (kps : List KeypointData) : Prop :=
  kps.Pairwise fun p q => p.my ≤ q.my

/-- Row predicate used throughout: keypoint row strictly below threshold `c`. -/
def rowBelow (c : ℚ) : KeypointData → Bool := fun kd => decide (kd.my < c)

/-- Inner `while` loop of the LUT construction (lines 60-63): advance the
cursor `v` past every keypoint whose row is strictly below row `y`.  The
cursor is represented as the count `v` together with the remaining suffix of
the sorted keypoint list. -/
def advanceCursor (y : ℚ) : Nat → List KeypointData → Nat × List KeypointData
  | v, [] => (v, [])
  | v, kd :: rest =>
    if kd.my < y then advanceCursor y (v + 1) rest else (v, kd :: rest)

/-- Outer `for` loop of the LUT construction (lines 59-65): one entry per
image row `y`, each recording the cursor position after the inner advance. -/
def lutFrom : Nat → Nat → Nat → List KeypointData → List Nat
  | _, 0, _, _ => []
  | y, fuel + 1, v, rem =>
    let s := advanceCursor (y : ℚ) v rem
    s.1 :: lutFrom (y + 1) fuel s.1 s.2

/-- `corner_row_LUT` (lines 55-66): `corner_row_LUT[i]` is meant to be the
number of target keypoints with row coordinate below `i`. -/
def corner_row_LUT (kps : List KeypointData) (image_height : Nat) : List Nat :=
  lutFrom 0 image_height 0 kps

/-- One entry of the output `MatchesWithScore` container: frame-(k+1) index,
frame-k index, and score (line 203-204 passes `0.0` for the score). -/
structure MatchRecord where
  index_kp1 : Nat
  index_k : Nat
  score : ℚ
deriving DecidableEq

/-- Inputs of `matchFeatures`.  The fields marked as matching data are
modelled from the spec: `GyroTrackerMatchingData` (declared outside the
translated file) supplies the row-sorted target keypoints, the predicted
positions of the source keypoints in the target frame, and the per-frame
descriptor buffers; the search radii and the threshold fraction are the
configuration constants `kSmallSearchDistance`, `kLargeSearchDistance` and
`kMatchingThresholdBitsRatio` (pixel radii and the fraction of descriptor
bits below which a match is rejected). -/
structure MatchingInput where
  imageHeight : Nat
  smallSearchDistance : ℚ
  largeSearchDistance : ℚ
  thresholdBitsFrac : ℚ
  descriptorSizeBytes : Nat
  keypointsBy_y : List KeypointData
  numPointsK : Nat
  predicted : List (ℚ × ℚ)
  descriptorsK : List (List Nat)
  descriptorsKp1 : List (List Nat)

/-- State of the candidate scan for one source keypoint (lines 136-144):
`found`, `best_score`, the best iterator (an `Option` because the C++
iterator is uninitialized until a candidate is accepted), the per-source
`processed_corners_kp1` flags, and `n_processed_corners`. -/
structure ScanState where
  found : Bool
  best_score : ℤ
  best : Option KeypointData
  processed : Nat → Bool
  nProcessed : Nat

/-- Setting one entry of a `std::vector<bool>` flag array. -/
def updateFlag (f : Nat → Bool) (i : Nat) : Nat → Bool :=
  fun j => if j = i then true else f j

/-- `kdescriptorSizeBits * kMatchingThresholdBitsRatio` truncated by
`static_cast<int>` (line 140): the initial value of `best_score`. -/
def initialBestScore (inp : MatchingInput) : ℤ :=
  cppTrunc ((8 * inp.descriptorSizeBytes : ℚ) * inp.thresholdBitsFrac)

def initScanState (inp : MatchingInput) : ScanState :=
  { found := false, best_score := initialBestScore inp, best := none,
    processed := fun _ => false, nProcessed := 0 }

/-- `current_score` (lines 162, 188): descriptor bit width minus Hamming
distance between the source descriptor and the candidate's descriptor. -/
def scoreCandidate (inp : MatchingInput) (descriptor_k : List Nat) (kd : KeypointData) : ℤ :=
  (8 * inp.descriptorSizeBytes : ℤ)
    - hammingDistance512 inp.descriptorSizeBytes descriptor_k (inp.descriptorsKp1.getD kd.index [])

/-- Shared tail of both scan loops (lines 162-170 = lines 188-196): score the
candidate, accept it if the score strictly exceeds the running best, then mark
it processed and bump the processed counter.  This variant is the abort-free
projection: the fatal `CHECK_LT` on the predicted-to-candidate distance that
the code runs on every acceptance (lines 167 and 193) is modelled by
`acceptStepChecked` below, whose `none` result is the fatal abort; on runs
that complete, the two agree (`acceptStepChecked_sound`). -/
def acceptStep (inp : MatchingInput) (descriptor_k : List Nat)
    (st : ScanState) (kd : KeypointData) : ScanState :=
  let current_score := scoreCandidate inp descriptor_k kd
  let st1 := if current_score > st.best_score then
      { st with found := true, best_score := current_score, best := some kd }
    else st
  { st1 with processed := updateFlag st1.processed kd.index, nProcessed := st1.nProcessed + 1 }

/-- Small-window loop body (lines 150-171): skip a candidate outside the
column bounds, skip a candidate already claimed by an earlier source
keypoint, otherwise score it. -/
def narrowStep (inp : MatchingInput) (is_keypoint_kp1_matched : Nat → Bool)
    (descriptor_k : List Nat) (boundLeft boundRight : ℤ)
    (st : ScanState) (kd : KeypointData) : ScanState :=
  if kd.mx < (boundLeft : ℚ) ∨ kd.mx > (boundRight : ℚ) then st
  else if is_keypoint_kp1_matched kd.index then st
  else acceptStep inp descriptor_k st kd

/-- Large-window loop body (lines 178-197): skip a candidate already
processed in the small window or already claimed, then filter by column
bounds, otherwise score it exactly as the small window does. -/
def wideStep (inp : MatchingInput) (is_keypoint_kp1_matched : Nat → Bool)
    (descriptor_k : List Nat) (boundLeft boundRight : ℤ)
    (st : ScanState) (kd : KeypointData) : ScanState :=
  if st.processed kd.index || is_keypoint_kp1_matched kd.index then st
  else if kd.mx < (boundLeft : ℚ) ∨ kd.mx > (boundRight : ℚ) then st
  else acceptStep inp descriptor_k st kd

/-- `predicted_keypoint_position_kp1` for source keypoint `i` (line 95). -/
def predictedOf (inp : MatchingInput) (i : Nat) : ℚ × ℚ :=
  inp.predicted.getD i (0, 0)

/-- `image_height - 1` as the signed value used at every clamp call site. -/
def heightBound (inp : MatchingInput) : ℤ :=
  (inp.imageHeight : ℤ) - 1

/-- `idxnearest[0]` (line 105). -/
def idxNearestLow (inp : MatchingInput) (i : Nat) : ℤ :=
  clamp 0 (heightBound inp)
    (cppTrunc ((predictedOf inp i).2 + 1/2 - inp.smallSearchDistance))

/-- `idxnearest[1]` (line 106). -/
def idxNearestHigh (inp : MatchingInput) (i : Nat) : ℤ :=
  clamp 0 (heightBound inp)
    (cppTrunc ((predictedOf inp i).2 + 1/2 + inp.smallSearchDistance))

/-- `idxnear[0]` (line 108). -/
def idxNearLow (inp : MatchingInput) (i : Nat) : ℤ :=
  clamp 0 (heightBound inp)
    (cppTrunc ((predictedOf inp i).2 + 1/2 - inp.largeSearchDistance))

/-- `idxnear[1]` (line 109). -/
def idxNearHigh (inp : MatchingInput) (i : Nat) : ℤ :=
  clamp 0 (heightBound inp)
    (cppTrunc ((predictedOf inp i).2 + 1/2 + inp.largeSearchDistance))

/-- `nearest_top` (line 123). -/
def nearestTop (inp : MatchingInput) (i : Nat) : ℤ :=
  min (idxNearestLow inp i) (heightBound inp)

/-- `nearest_bottom` (line 124). -/
def nearestBottom (inp : MatchingInput) (i : Nat) : ℤ :=
  min (idxNearestHigh inp i + 1) (heightBound inp)

/-- `near_top` (line 125). -/
def nearTop (inp : MatchingInput) (i : Nat) : ℤ :=
  min (idxNearLow inp i) (heightBound inp)

/-- `near_bottom` (line 126). -/
def nearBottom (inp : MatchingInput) (i : Nat) : ℤ :=
  min (idxNearHigh inp i + 1) (heightBound inp)

/-- The iterator range `[begin + lut[top], begin + lut[bottom])` over the
row-sorted keypoint list (lines 130-133). -/
def windowSlice (kps : List KeypointData) (lut : List Nat) (top bottom : ℤ) :
    List KeypointData :=
  (kps.take (lut.getD bottom.toNat 0)).drop (lut.getD top.toNat 0)

/-- Candidates visited by the small-window loop for source keypoint `i`. -/
def narrowCandidates (inp : MatchingInput) (lut : List Nat) (i : Nat) :
    List KeypointData :=
  windowSlice inp.keypointsBy_y lut (nearestTop inp i) (nearestBottom inp i)

/-- Candidates visited by the large-window loop for source keypoint `i`. -/
def nearCandidates (inp : MatchingInput) (lut : List Nat) (i : Nat) :
    List KeypointData :=
  windowSlice inp.keypointsBy_y lut (nearTop inp i) (nearBottom inp i)

/-- `bound_left_nearest` (line 146). -/
def boundLeftNearest (inp : MatchingInput) (i : Nat) : ℤ :=
  cppTrunc ((predictedOf inp i).1 - inp.smallSearchDistance)

/-- `bound_right_nearest` (line 147). -/
def boundRightNearest (inp : MatchingInput) (i : Nat) : ℤ :=
  cppTrunc ((predictedOf inp i).1 + inp.smallSearchDistance)

/-- `bound_left_near` (line 175). -/
def boundLeftNear (inp : MatchingInput) (i : Nat) : ℤ :=
  cppTrunc ((predictedOf inp i).1 - inp.largeSearchDistance)

/-- `bound_right_near` (line 176). -/
def boundRightNear (inp : MatchingInput) (i : Nat) : ℤ :=
  cppTrunc ((predictedOf inp i).1 + inp.largeSearchDistance)

/-- The small-window scan (lines 150-171) for source keypoint `i`. -/
def narrowScan (inp : MatchingInput) (lut : List Nat)
    (is_keypoint_kp1_matched : Nat → Bool) (i : Nat) : ScanState :=
  (narrowCandidates inp lut i).foldl
    (narrowStep inp is_keypoint_kp1_matched (inp.descriptorsK.getD i [])
      (boundLeftNearest inp i) (boundRightNearest inp i))
    (initScanState inp)

/-- Scan state after both windows: the large window runs only when the small
window accepted nothing (line 174 `if (!found)`). -/
def finalScan (inp : MatchingInput) (lut : List Nat)
    (is_keypoint_kp1_matched : Nat → Bool) (i : Nat) : ScanState :=
  let st := narrowScan inp lut is_keypoint_kp1_matched i
  if st.found then st
  else (nearCandidates inp lut i).foldl
    (wideStep inp is_keypoint_kp1_matched (inp.descriptorsK.getD i [])
      (boundLeftNear inp i) (boundRightNear inp i)) st

/-- One iteration of the source-keypoint loop (lines 94-211): scan both
windows and, on success, claim the accepted target keypoint and emit a match
record with score `0.0` (lines 200-206). -/
def processSource (inp : MatchingInput) (lut : List Nat)
    (is_keypoint_kp1_matched : Nat → Bool) (i : Nat) :
    (Nat → Bool) × Option MatchRecord :=
  let st := finalScan inp lut is_keypoint_kp1_matched i
  if st.found then
    match st.best with
    | some b => (updateFlag is_keypoint_kp1_matched b.index, some ⟨b.index, i, 0⟩)
    | none => (is_keypoint_kp1_matched, none)
  else (is_keypoint_kp1_matched, none)

/-- The loop over source keypoints `i = 0 .. num_points_k - 1`, threading the
`is_keypoint_kp1_matched` exclusivity flags and accumulating emitted match
records in order. -/
def matchLoop (inp : MatchingInput) (lut : List Nat) :
    List Nat → (Nat → Bool) → List MatchRecord → List MatchRecord
  | [], _, acc => acc
  | i :: rest, is_keypoint_kp1_matched, acc =>
    let r := processSource inp lut is_keypoint_kp1_matched i
    matchLoop inp lut rest r.1 (acc ++ r.2.toList)

/-- `GyroTracker::matchFeatures` (lines 43-212): build the row LUT, then
match every source keypoint greedily.  This is the abort-free projection of
the routine: the fatal checks it can hit at run time --
`CHECK_LE(kdescriptorSizeBytes * 8, 512)` (line 70), the window-index checks
(lines 111-121) and the acceptance-distance checks (lines 167, 193) -- are
modelled by `matchFeaturesChecked` below, whose `none` is the fatal abort;
on runs that complete, the two agree (`matchFeaturesChecked_sound`). -/
def matchFeatures (inp : MatchingInput) : List MatchRecord :=
  let lut := corner_row_LUT inp.keypointsBy_y inp.imageHeight
  matchLoop inp lut (List.range inp.numPointsK) (fun _ => false) []

/-- The per-frame data that `GyroTracker::track` inspects through the
`VisualFrame` interface (declared outside the translated file; fields named
after the accessors used in lines 25-37). -/
structure FrameModel where
  hasKeypointMeasurements : Bool
  hasTrackIds : Bool
  hasDescriptors : Bool
  cameraGeometryId : Option Nat
  timestampNanoseconds : ℤ
  descriptorRows : Nat
  descriptorSizeBytes : Nat
  keypointMeasurementCols : Nat
  descriptorCols : Nat
deriving DecidableEq

/-- `GyroTracker::track` (lines 21-41): the CHECK cascade in source order;
any failing CHECK aborts the program before any matching work, modelled as
`none`.  On success the output container is populated by `matchFeatures`
(whose inputs, derived from the two frames by the matching-data helper, are
passed through). -/
def track (cameraId : Nat) (frame_k frame_kp1 : FrameModel) (inp : MatchingInput) :
    Option (List MatchRecord) :=
  if frame_k.hasKeypointMeasurements = false then none
  else if frame_kp1.hasKeypointMeasurements = false then none
  else if frame_k.cameraGeometryId ≠ some cameraId then none
  else if frame_kp1.cameraGeometryId ≠ some cameraId then none
  else if frame_k.hasTrackIds = false then none
  else if frame_kp1.hasTrackIds = false then none
  else if ¬(frame_kp1.timestampNanoseconds > frame_k.timestampNanoseconds) then none
  else if frame_kp1.hasDescriptors = false then none
  else if frame_kp1.descriptorRows ≠ frame_kp1.descriptorSizeBytes then none
  else if frame_kp1.keypointMeasurementCols ≠ frame_kp1.descriptorCols then none
  else some (matchFeatures inp)

/-- Concrete two-keypoint target frame, sorted by row. -/
def kpsPair : List KeypointData := [⟨1, 0, 0⟩, ⟨0, 0, 1⟩]

/-- Identity scenario (predicted position = own position, frame k+1 equal to
frame k) in which the two keypoints also share one descriptor. -/
def inpTwin : MatchingInput :=
  { imageHeight := 4, smallSearchDistance := 1, largeSearchDistance := 2,
    thresholdBitsFrac := 0, descriptorSizeBytes := 1,
    keypointsBy_y := kpsPair, numPointsK := 2,
    predicted := [(0, 1), (0, 0)],
    descriptorsK := [[0], [0]], descriptorsKp1 := [[0], [0]] }

/-- Identity scenario with pairwise-distinct descriptors. -/
def inpIdentity : MatchingInput :=
  { inpTwin with descriptorsK := [[1], [2]], descriptorsKp1 := [[1], [2]] }

/-- One source keypoint whose sole candidate scores exactly the threshold
`8 * 1 * (1/2) = 4` (Hamming distance 4 between `[15]` and `[0]`). -/
def inpThresholdEq : MatchingInput :=
  { imageHeight := 4, smallSearchDistance := 1, largeSearchDistance := 2,
    thresholdBitsFrac := 1/2, descriptorSizeBytes := 1,
    keypointsBy_y := [⟨0, 0, 1⟩], numPointsK := 1,
    predicted := [(0, 1)],
    descriptorsK := [[15]], descriptorsKp1 := [[0]] }

/-- Same scenario with the candidate scoring one bit above the threshold. -/
def inpThresholdUp : MatchingInput :=
  { inpThresholdEq with descriptorsK := [[7]] }

/-- A single target keypoint whose row is exactly `image_height - 1` for
`image_height = 2`. -/
def kpsRowEdge : List KeypointData := [⟨0, 0, 1⟩]

/-- A frame satisfying every `track` precondition on its side. -/
def frameOk : FrameModel :=
  { hasKeypointMeasurements := true, hasTrackIds := true, hasDescriptors := true,
    cameraGeometryId := some 7, timestampNanoseconds := 0,
    descriptorRows := 1, descriptorSizeBytes := 1,
    keypointMeasurementCols := 0, descriptorCols := 0 }

/-- Like `frameOk` but captured later, suitable as `frame_kp1`. -/
def frameOkLater : FrameModel := { frameOk with timestampNanoseconds := 1 }

/-- Like `frameOk` but with no descriptor data. -/
def frameNoDescriptors : FrameModel := { frameOk with hasDescriptors := false }

/-- A matching input with no keypoints at all. -/
def inpEmpty : MatchingInput :=
  { imageHeight := 0, smallSearchDistance := 0, largeSearchDistance := 0,
    thresholdBitsFrac := 0, descriptorSizeBytes := 0,
    keypointsBy_y := [], numPointsK := 0, predicted := [],
    descriptorsK := [], descriptorsKp1 := [] }

/-- Squared Euclidean distance between the predicted position and a
candidate's measurement.  The code compares
`(predicted_keypoint_position_kp1 - it_best->measurement).norm()` against
`radius * 2` (lines 167, 193); for a nonnegative bound the comparison
`norm < bound` is equivalent to `normSq < bound ^ 2`, which stays inside ℚ. -/
def normSq (p : ℚ × ℚ) (kd : KeypointData) : ℚ :=
  (p.1 - kd.mx) ^ 2 + (p.2 - kd.my) ^ 2

/-- The fatal window-index checks of lines 111-121: `idxnearest[0] <=
idxnearest[1]`, `idxnear[0] <= idxnear[1]`, all four indices nonnegative and
strictly below `image_height`.  `true` means every CHECK passes. -/
def windowChecksPass (inp : MatchingInput) (i : Nat) : Bool :=
  decide (idxNearestLow inp i ≤ idxNearestHigh inp i)
  && decide (idxNearLow inp i ≤ idxNearHigh inp i)
  && decide (0 ≤ idxNearestLow inp i) && decide (0 ≤ idxNearestHigh inp i)
  && decide (0 ≤ idxNearLow inp i) && decide (0 ≤ idxNearHigh inp i)
  && decide (idxNearestLow inp i < (inp.imageHeight : ℤ))
  && decide (idxNearestHigh inp i < (inp.imageHeight : ℤ))
  && decide (idxNearLow inp i < (inp.imageHeight : ℤ))
  && decide (idxNearHigh inp i < (inp.imageHeight : ℤ))

/-- Abort-aware `acceptStep` (lines 162-170 and 188-196 including the fatal
`CHECK_LT((predicted_keypoint_position_kp1 - it_best->measurement).norm(),
radius * 2)` of lines 167 and 193, which runs on EVERY acceptance, transient
or final): `none` is the fatal glog abort; `searchDistance` is
`kSmallSearchDistance` in the small window and `kLargeSearchDistance` in the
large one. -/
def acceptStepChecked (inp : MatchingInput) (descriptor_k : List Nat)
    (predicted : ℚ × ℚ) (searchDistance : ℚ)
    (st : ScanState) (kd : KeypointData) : Option ScanState :=
  let current_score := scoreCandidate inp descriptor_k kd
  if current_score > st.best_score then
    if normSq predicted kd < (searchDistance * 2) ^ 2 then
      some { found := true, best_score := current_score, best := some kd,
             processed := updateFlag st.processed kd.index,
             nProcessed := st.nProcessed + 1 }
    else none
  else
    some { st with processed := updateFlag st.processed kd.index,
                   nProcessed := st.nProcessed + 1 }

/-- Abort-aware small-window loop body (lines 150-171). -/
def narrowStepChecked (inp : MatchingInput) (is_keypoint_kp1_matched : Nat → Bool)
    (descriptor_k : List Nat) (boundLeft boundRight : ℤ)
    (predicted : ℚ × ℚ) (searchDistance : ℚ)
    (st : ScanState) (kd : KeypointData) : Option ScanState :=
  if kd.mx < (boundLeft : ℚ) ∨ kd.mx > (boundRight : ℚ) then some st
  else if is_keypoint_kp1_matched kd.index then some st
  else acceptStepChecked inp descriptor_k predicted searchDistance st kd

/-- Abort-aware large-window loop body (lines 178-197). -/
def wideStepChecked (inp : MatchingInput) (is_keypoint_kp1_matched : Nat → Bool)
    (descriptor_k : List Nat) (boundLeft boundRight : ℤ)
    (predicted : ℚ × ℚ) (searchDistance : ℚ)
    (st : ScanState) (kd : KeypointData) : Option ScanState :=
  if st.processed kd.index || is_keypoint_kp1_matched kd.index then some st
  else if kd.mx < (boundLeft : ℚ) ∨ kd.mx > (boundRight : ℚ) then some st
  else acceptStepChecked inp descriptor_k predicted searchDistance st kd

/-- Candidate loop threading the scan state through an abort-aware step:
a `none` result is a fatal CHECK failure that stops the whole program. -/
def scanLoopChecked (step : ScanState → KeypointData → Option ScanState) :
    List KeypointData → ScanState → Option ScanState
  | [], st => some st
  | kd :: rest, st =>
    match step st kd with
    | none => none
    | some st' => scanLoopChecked step rest st'

/-- Abort-aware small-window scan for source keypoint `i`. -/
def narrowScanChecked (inp : MatchingInput) (lut : List Nat)
    (is_keypoint_kp1_matched : Nat → Bool) (i : Nat) : Option ScanState :=
  scanLoopChecked
    (narrowStepChecked inp is_keypoint_kp1_matched (inp.descriptorsK.getD i [])
      (boundLeftNearest inp i) (boundRightNearest inp i)
      (predictedOf inp i) inp.smallSearchDistance)
    (narrowCandidates inp lut i) (initScanState inp)

/-- Abort-aware scan of both windows (the large window runs only when the
small window accepted nothing, line 174). -/
def finalScanChecked (inp : MatchingInput) (lut : List Nat)
    (is_keypoint_kp1_matched : Nat → Bool) (i : Nat) : Option ScanState :=
  match narrowScanChecked inp lut is_keypoint_kp1_matched i with
  | none => none
  | some st =>
    if st.found then some st
    else scanLoopChecked
      (wideStepChecked inp is_keypoint_kp1_matched (inp.descriptorsK.getD i [])
        (boundLeftNear inp i) (boundRightNear inp i)
        (predictedOf inp i) inp.largeSearchDistance)
      (nearCandidates inp lut i) st

/-- Abort-aware iteration of the source-keypoint loop (lines 94-211),
including the fatal window-index checks of lines 111-121 that run before the
scans.  The index-bound checks of lines 159-160 and 185-186 compare a
candidate's index against `num_points_kp1`; `keypoints_kp1_by_y` enumerates
exactly the frame-(k+1) keypoints, so those checks cannot fail and are
modelled as passing. -/
def processSourceChecked (inp : MatchingInput) (lut : List Nat)
    (is_keypoint_kp1_matched : Nat → Bool) (i : Nat) :
    Option ((Nat → Bool) × Option MatchRecord) :=
  if windowChecksPass inp i then
    match finalScanChecked inp lut is_keypoint_kp1_matched i with
    | none => none
    | some st =>
      if st.found then
        match st.best with
        | some b => some (updateFlag is_keypoint_kp1_matched b.index, some ⟨b.index, i, 0⟩)
        | none => some (is_keypoint_kp1_matched, none)
      else some (is_keypoint_kp1_matched, none)
  else none

/-- Abort-aware loop over source keypoints. -/
def matchLoopChecked (inp : MatchingInput) (lut : List Nat) :
    List Nat → (Nat → Bool) → List MatchRecord → Option (List MatchRecord)
  | [], _, acc => some acc
  | i :: rest, is_keypoint_kp1_matched, acc =>
    match processSourceChecked inp lut is_keypoint_kp1_matched i with
    | none => none
    | some r => matchLoopChecked inp lut rest r.1 (acc ++ r.2.toList)

/-- Abort-aware `GyroTracker::matchFeatures`: `none` is a fatal glog CHECK
failure, so the program emits no matches at all.  Modelled fatal checks:
`CHECK_LE(kdescriptorSizeBytes * 8, 512)` (line 70), the window-index checks
(lines 111-121) and the acceptance-distance checks (lines 167 and 193).  The
check inside `hammingDistance512` (line 81) compares the popcount sum against
`kdescriptorSizeBytes * 8`, which cannot fail for 8-bit bytes, and
`CHECK_EQ(corner_row_LUT.size(), image_height)` (line 66) always holds
(`corner_row_LUT_length`); both are modelled as passing. -/
def matchFeaturesChecked (inp : MatchingInput) : Option (List MatchRecord) :=
  if inp.descriptorSizeBytes * 8 ≤ 512 then
    matchLoopChecked inp (corner_row_LUT inp.keypointsBy_y inp.imageHeight)
      (List.range inp.numPointsK) (fun _ => false) []
  else none

/-- Identity scenario with pairwise-distinct descriptors and a small search
radius of 4 pixels, wide enough that every candidate inside the small window
is closer to the prediction than twice the radius. -/
def inpIdentityWide : MatchingInput :=
  { inpTwin with smallSearchDistance := 4, largeSearchDistance := 5,
                 descriptorsK := [[1], [2]], descriptorsKp1 := [[1], [2]] }

-- ## Theorems

theorem cppTrunc_le_self {q : ℚ} (h : 0 ≤ q) : (cppTrunc q : ℚ) ≤ q := by
  rw [cppTrunc, if_neg (not_lt.mpr h)]
  exact Int.floor_le q

theorem lt_cppTrunc_add_one {q : ℚ} (h : 0 ≤ q) : q < (cppTrunc q : ℚ) + 1 := by
  rw [cppTrunc, if_neg (not_lt.mpr h)]
  exact_mod_cast Int.lt_floor_add_one q

theorem cppTrunc_nonpos {q : ℚ} (h : q < 0) : cppTrunc q ≤ 0 := by
  rw [cppTrunc, if_pos h]
  have : (0 : ℤ) ≤ ⌊-q⌋ := Int.le_floor.mpr (by push_cast; linarith)
  omega

theorem cppTrunc_intCast (n : ℤ) : cppTrunc ((n : ℤ) : ℚ) = n := by
  rw [cppTrunc]
  rcases lt_or_le (n : ℚ) 0 with h | h
  · rw [if_pos h]
    rw [show (-(n : ℚ)) = ((-n : ℤ) : ℚ) by push_cast; ring, Int.floor_intCast]
    omega
  · rw [if_neg (not_lt.mpr h), Int.floor_intCast]

theorem cppTrunc_nonneg {q : ℚ} (h : 0 ≤ q) : 0 ≤ cppTrunc q := by
  rw [cppTrunc, if_neg (not_lt.mpr h)]
  exact Int.floor_nonneg.mpr h

theorem popcntLoop_congr : ∀ (v f g : Nat), v ≤ f → v ≤ g → popcntLoop f v = popcntLoop g v := by
  intro v
  induction v using Nat.strong_induction_on with
  | _ v ih =>
    intro f g hf hg
    match v, f, g with
    | 0, 0, 0 => rfl
    | 0, 0, g + 1 => simp [popcntLoop]
    | 0, f + 1, 0 => simp [popcntLoop]
    | 0, f + 1, g + 1 => simp [popcntLoop]
    | v + 1, f + 1, g + 1 =>
      simp only [popcntLoop, if_neg (Nat.succ_ne_zero v), Nat.succ_sub_one]
      have hA : (v + 1) &&& v ≤ v := Nat.and_le_right
      have hlt : (v + 1) &&& v < v + 1 := by omega
      have h1 : (v + 1) &&& v ≤ f := by omega
      have h2 : (v + 1) &&& v ≤ g := by omega
      rw [ih ((v + 1) &&& v) hlt f g h1 h2]

theorem popcnt_step {v : Nat} (h : v ≠ 0) : popcnt v = 1 + popcnt (v &&& (v - 1)) := by
  obtain ⟨w, rfl⟩ : ∃ w, v = w + 1 := ⟨v - 1, by omega⟩
  show popcntLoop (w + 1) (w + 1) = 1 + popcnt ((w + 1) &&& (w + 1 - 1))
  simp only [popcntLoop, if_neg (Nat.succ_ne_zero w), Nat.succ_sub_one]
  have hle : (w + 1) &&& w ≤ w := Nat.and_le_right
  rw [popcntLoop_congr ((w + 1) &&& w) w ((w + 1) &&& w) hle (Nat.le_refl _)]
  rfl

theorem bitCount_pos_eq {v : Nat} (h : v ≠ 0) : bitCount v = bitCount (v / 2) + v % 2 := by
  obtain ⟨w, rfl⟩ : ∃ w, v = w + 1 := ⟨v - 1, by omega⟩
  rw [bitCount]

theorem bitCount_two_mul (m : Nat) : bitCount (2 * m) = bitCount m := by
  rcases Nat.eq_zero_or_pos m with rfl | hm
  · rfl
  · rw [bitCount_pos_eq (by omega)]
    have h1 : 2 * m / 2 = m := by omega
    have h2 : 2 * m % 2 = 0 := by omega
    rw [h1, h2]
    omega

theorem bitCount_two_mul_add_one (m : Nat) : bitCount (2 * m + 1) = bitCount m + 1 := by
  rw [bitCount_pos_eq (by omega)]
  have h1 : (2 * m + 1) / 2 = m := by omega
  have h2 : (2 * m + 1) % 2 = 1 := by omega
  rw [h1, h2]

theorem land_double_succ (m : Nat) : (2 * m + 1) &&& (2 * m) = 2 * m := by
  apply Nat.eq_of_testBit_eq
  intro i
  cases i with
  | zero =>
    simp only [Nat.testBit_land, Nat.testBit_zero]
    have h1 : (2 * m + 1) % 2 = 1 := by omega
    have h2 : (2 * m) % 2 = 0 := by omega
    simp [h1, h2]
  | succ i =>
    rw [Nat.testBit_land, Nat.testBit_succ, Nat.testBit_succ]
    have h1 : (2 * m + 1) / 2 = m := by omega
    have h2 : (2 * m) / 2 = m := by omega
    rw [h1, h2, Bool.and_self]

theorem land_double_pred (k : Nat) : (2 * (k + 1)) &&& (2 * k + 1) = 2 * ((k + 1) &&& k) := by
  apply Nat.eq_of_testBit_eq
  intro i
  cases i with
  | zero =>
    simp only [Nat.testBit_land, Nat.testBit_zero]
    have h1 : (2 * (k + 1)) % 2 = 0 := by omega
    have h2 : (2 * ((k + 1) &&& k)) % 2 = 0 := by omega
    simp [h1, h2]
  | succ i =>
    rw [Nat.testBit_land, Nat.testBit_succ, Nat.testBit_succ, Nat.testBit_succ]
    have hA : (k + 1) &&& k ≤ k := Nat.and_le_right
    have h1 : (2 * (k + 1)) / 2 = k + 1 := by omega
    have h2 : (2 * k + 1) / 2 = k := by omega
    have h3 : (2 * ((k + 1) &&& k)) / 2 = (k + 1) &&& k := by omega
    rw [h1, h2, h3, Nat.testBit_land]

theorem popcnt_eq_bitCount : ∀ v, popcnt v = bitCount v := by
  intro v
  induction v using Nat.strong_induction_on with
  | _ v ih =>
    rcases Nat.eq_zero_or_pos v with rfl | hv
    · simp [popcnt, popcntLoop, bitCount]
    rcases Nat.even_or_odd v with ⟨m, hm⟩ | ⟨m, hm⟩
    · -- v = m + m with m > 0
      have hm' : 0 < m := by omega
      obtain ⟨k, rfl⟩ : ∃ k, m = k + 1 := ⟨m - 1, by omega⟩
      subst hm
      have hA : (k + 1) &&& k ≤ k := Nat.and_le_right
      rw [show (k + 1) + (k + 1) = 2 * (k + 1) by omega]
      rw [popcnt_step (by omega), show 2 * (k + 1) - 1 = 2 * k + 1 by omega,
        land_double_pred]
      rw [ih (2 * ((k + 1) &&& k)) (by omega), bitCount_two_mul, bitCount_two_mul,
        ← ih ((k + 1) &&& k) (by omega), ← ih (k + 1) (by omega),
        popcnt_step (show k + 1 ≠ 0 by omega), show k + 1 - 1 = k by omega]
    · -- v = 2 * m + 1
      subst hm
      have hsub : 2 * m + 1 - 1 = 2 * m := by omega
      rw [popcnt_step (by omega), hsub, land_double_succ,
        ih (2 * m) (by omega), bitCount_two_mul, bitCount_two_mul_add_one]
      omega

theorem bitCount_eq_countP : ∀ (K v : Nat), v < 2 ^ K →
    bitCount v = (List.range K).countP fun i => v.testBit i := by
  intro K
  induction K with
  | zero =>
    intro v hv
    interval_cases v
    simp [bitCount]
  | succ K ih =>
    intro v hv
    rcases Nat.eq_zero_or_pos v with rfl | hvpos
    · simp [bitCount, Nat.zero_testBit]
    rw [bitCount_pos_eq (by omega), List.range_succ_eq_map, List.countP_cons,
      List.countP_map]
    have hdiv : v / 2 < 2 ^ K := by
      rw [Nat.div_lt_iff_lt_mul (by omega)]
      calc v < 2 ^ (K + 1) := hv
        _ = 2 ^ K * 2 := by ring
    have hcong : (List.range K).countP ((fun i => v.testBit i) ∘ Nat.succ)
        = (List.range K).countP fun i => (v / 2).testBit i := by
      apply List.countP_congr
      intro x _
      simp [Function.comp, Nat.testBit_succ]
    rw [hcong, ← ih (v / 2) hdiv]
    simp only [Nat.testBit_zero]
    rcases Nat.mod_two_eq_zero_or_one v with h2 | h2 <;> simp [h2]

theorem popcnt_eq_countP {K v : Nat} (hv : v < 2 ^ K) :
    popcnt v = (List.range K).countP fun i => v.testBit i :=
  (popcnt_eq_bitCount v).trans (bitCount_eq_countP K v hv)

theorem popcnt_zero : popcnt 0 = 0 := rfl

theorem popcnt_pos {v : Nat} (h : v ≠ 0) : 1 ≤ popcnt v := by
  rw [popcnt_step h]
  omega

theorem popcnt_byte_xor {a b : Nat} (ha : a < 256) (hb : b < 256) :
    popcnt (a ^^^ b) = (List.range 8).countP fun j => (a.testBit j) != (b.testBit j) := by
  have hxor : a ^^^ b < 2 ^ 8 := Nat.xor_lt_two_pow (by omega) (by omega)
  rw [popcnt_eq_countP hxor]
  apply List.countP_congr
  intro j _
  cases hA : a.testBit j <;> cases hB : b.testBit j <;> simp [Nat.testBit_xor, hA, hB]

theorem hammingDistance512_cons (L : Nat) (a b : Nat) (x y : List Nat) :
    hammingDistance512 (L + 1) (a :: x) (b :: y)
      = popcnt (a ^^^ b) + hammingDistance512 L x y := by
  have hfun : ((fun i => popcnt (((a :: x).getD i 0) ^^^ ((b :: y).getD i 0))) ∘ Nat.succ)
      = fun i => popcnt ((x.getD i 0) ^^^ (y.getD i 0)) := by
    funext i
    simp [Function.comp, List.getD_cons_succ]
  rw [hammingDistance512, hammingDistance512, List.range_succ_eq_map, List.map_cons,
    List.map_map, hfun, List.sum_cons]
  simp [List.getD_cons_zero]

theorem numDiffBits_cons (L : Nat) (a b : Nat) (x y : List Nat) :
    numDiffBits (L + 1) (a :: x) (b :: y)
      = ((List.range 8).countP fun j => (a.testBit j) != (b.testBit j)) + numDiffBits L x y := by
  have hfirst : (List.range 8).countP
        (fun j => (((a :: x).getD (j / 8) 0).testBit (j % 8))
          != (((b :: y).getD (j / 8) 0).testBit (j % 8)))
      = (List.range 8).countP fun j => (a.testBit j) != (b.testBit j) := by
    apply List.countP_congr
    intro j hj
    rw [List.mem_range] at hj
    have h1 : j / 8 = 0 := by omega
    have h2 : j % 8 = j := by omega
    rw [h1, h2]
    simp
  have hsecond : (List.range (8 * L)).countP
        ((fun j => (((a :: x).getD (j / 8) 0).testBit (j % 8))
          != (((b :: y).getD (j / 8) 0).testBit (j % 8))) ∘ (fun t => 8 + t))
      = numDiffBits L x y := by
    rw [numDiffBits]
    apply List.countP_congr
    intro j _
    have h1 : (8 + j) / 8 = j / 8 + 1 := by omega
    have h2 : (8 + j) % 8 = j % 8 := by omega
    simp [Function.comp, h1, h2, List.getD_cons_succ]
  rw [numDiffBits, show 8 * (L + 1) = 8 + 8 * L by ring, List.range_add, List.countP_append,
    List.countP_map, hfirst, hsecond]

theorem hammingDistance512_eq_numDiffBits :
    ∀ (L : Nat) (x y : List Nat), x.length = L → y.length = L →
    (∀ b ∈ x, b < 256) → (∀ b ∈ y, b < 256) →
    hammingDistance512 L x y = numDiffBits L x y := by
  intro L
  induction L with
  | zero =>
    intro x y hx hy _ _
    rw [List.length_eq_zero] at hx hy
    subst hx; subst hy
    rfl
  | succ L ih =>
    intro x y hx hy hbx hby
    match x, y with
    | a :: x, b :: y =>
      rw [hammingDistance512_cons, numDiffBits_cons,
        popcnt_byte_xor (hbx a (by simp)) (hby b (by simp)),
        ih x y (by simpa using hx) (by simpa using hy)
          (fun c hc => hbx c (by simp [hc])) (fun c hc => hby c (by simp [hc]))]

theorem numDiffBits_le (L : Nat) (x y : List Nat) : numDiffBits L x y ≤ 8 * L := by
  calc numDiffBits L x y ≤ (List.range (8 * L)).length := List.countP_le_length _
    _ = 8 * L := List.length_range _

theorem hammingDistance512_self (L : Nat) (x : List Nat) :
    hammingDistance512 L x x = 0 := by
  rw [hammingDistance512]
  apply List.sum_eq_zero
  intro v hv
  rw [List.mem_map] at hv
  obtain ⟨i, _, rfl⟩ := hv
  rw [Nat.xor_self, popcnt_zero]

theorem hammingDistance512_pos_of_ne {L : Nat} {x y : List Nat}
    (hx : x.length = L) (hy : y.length = L) (hne : x ≠ y) :
    1 ≤ hammingDistance512 L x y := by
  have : ∃ i, i < L ∧ x.getD i 0 ≠ y.getD i 0 := by
    by_contra hall
    push_neg at hall
    apply hne
    apply List.ext_getElem (hx.trans hy.symm)
    intro i h1 h2
    have := hall i (by omega)
    rwa [List.getD_eq_getElem?_getD, List.getD_eq_getElem?_getD,
      List.getElem?_eq_getElem h1, List.getElem?_eq_getElem h2] at this
  obtain ⟨i, hiL, hne'⟩ := this
  have hxor : x.getD i 0 ^^^ y.getD i 0 ≠ 0 := by
    intro h
    exact hne' (Nat.xor_eq_zero.mp h)
  have hmem : popcnt (x.getD i 0 ^^^ y.getD i 0)
      ∈ (List.range L).map fun i => popcnt ((x.getD i 0) ^^^ (y.getD i 0)) :=
    List.mem_map_of_mem _ (List.mem_range.mpr hiL)
  calc 1 ≤ popcnt (x.getD i 0 ^^^ y.getD i 0) := popcnt_pos hxor
    _ ≤ _ := List.single_le_sum (fun _ _ => Nat.zero_le _) _ hmem

theorem lutFrom_length : ∀ (fuel y v : Nat) (rem : List KeypointData),
    (lutFrom y fuel v rem).length = fuel := by
  intro fuel
  induction fuel with
  | zero => intro y v rem; rfl
  | succ fuel ih =>
    intro y v rem
    rw [lutFrom]
    simp [ih]

theorem corner_row_LUT_length (kps : List KeypointData) (H : Nat) :
    (corner_row_LUT kps H).length = H :=
  lutFrom_length H 0 0 kps

theorem advanceCursor_eq (y : ℚ) : ∀ (rem : List KeypointData) (v : Nat),
    advanceCursor y v rem
      = (v + (rem.takeWhile (rowBelow y)).length, rem.dropWhile (rowBelow y)) := by
  intro rem
  induction rem with
  | nil => intro v; simp [advanceCursor]
  | cons kd rest ih =>
    intro v
    by_cases h : kd.my < y
    · have hb : rowBelow y kd = true := by simp [rowBelow, h]
      rw [advanceCursor, if_pos h, ih (v + 1), List.takeWhile_cons, List.dropWhile_cons]
      simp only [hb, if_true, List.length_cons, Prod.mk.injEq]
      exact ⟨by omega, trivial⟩
    · have hb : rowBelow y kd = false := by simp [rowBelow, h]
      rw [advanceCursor, if_neg h, List.takeWhile_cons, List.dropWhile_cons]
      simp [hb]

theorem take_takeWhile_length {α : Type*} (p : α → Bool) :
    ∀ l : List α, l.take (l.takeWhile p).length = l.takeWhile p := by
  intro l
  induction l with
  | nil => rfl
  | cons a t ih =>
    rw [List.takeWhile_cons]
    by_cases hb : p a = true
    · rw [if_pos hb, List.length_cons, List.take_succ_cons, ih]
    · simp [hb]

theorem drop_takeWhile_length {α : Type*} (p : α → Bool) :
    ∀ l : List α, l.drop (l.takeWhile p).length = l.dropWhile p := by
  intro l
  induction l with
  | nil => rfl
  | cons a t ih =>
    rw [List.takeWhile_cons, List.dropWhile_cons]
    by_cases hb : p a = true
    · rw [if_pos hb, if_pos hb, List.length_cons, List.drop_succ_cons, ih]
    · simp [hb]

theorem sorted_countP_eq_takeWhile_length {kps : List KeypointData} (hs : SortedByY kps)
    (c : ℚ) : kps.countP (rowBelow c) = (kps.takeWhile (rowBelow c)).length := by
  induction kps with
  | nil => rfl
  | cons kd rest ih =>
    rw [SortedByY, List.pairwise_cons] at hs
    obtain ⟨hhead, htail⟩ := hs
    by_cases h : kd.my < c
    · have hb : rowBelow c kd = true := by simp [rowBelow, h]
      rw [List.countP_cons, List.takeWhile_cons]
      simp [hb, ih htail]
    · have hb : rowBelow c kd = false := by simp [rowBelow, h]
      have hzero : rest.countP (rowBelow c) = 0 := by
        rw [List.countP_eq_zero]
        intro kd' hkd'
        simp only [rowBelow, decide_eq_true_eq]
        intro hlt
        exact h (lt_of_le_of_lt (hhead kd' hkd') hlt)
      rw [List.countP_cons, List.takeWhile_cons]
      simp [hb, hzero]

theorem sorted_dropWhile_not_below {c : ℚ} :
    ∀ {kps : List KeypointData}, SortedByY kps →
    ∀ kd ∈ kps.dropWhile (rowBelow c), ¬(kd.my < c) := by
  intro kps
  induction kps with
  | nil => intro _ kd h; simp at h
  | cons hd rest ih =>
    intro hs kd hkd
    rw [SortedByY, List.pairwise_cons] at hs
    obtain ⟨hhead, htail⟩ := hs
    rw [List.dropWhile_cons] at hkd
    by_cases h : hd.my < c
    · have hb : rowBelow c hd = true := by simp [rowBelow, h]
      simp only [hb, if_true] at hkd
      exact ih htail kd hkd
    · have hb : rowBelow c hd = false := by simp [rowBelow, h]
      simp only [hb, Bool.false_eq_true, if_false] at hkd
      rcases List.mem_cons.mp hkd with rfl | hmem
      · exact h
      · intro hlt
        exact h (lt_of_le_of_lt (hhead kd hmem) hlt)

theorem sorted_take_countP {kps : List KeypointData} (hs : SortedByY kps) (c : ℚ) :
    ∀ kd ∈ kps.take (kps.countP (rowBelow c)), kd.my < c := by
  intro kd hkd
  rw [sorted_countP_eq_takeWhile_length hs, take_takeWhile_length] at hkd
  have := List.mem_takeWhile_imp hkd
  simpa [rowBelow] using this

theorem sorted_drop_countP {kps : List KeypointData} (hs : SortedByY kps) (c : ℚ) :
    ∀ kd ∈ kps.drop (kps.countP (rowBelow c)), ¬(kd.my < c) := by
  intro kd hkd
  rw [sorted_countP_eq_takeWhile_length hs, drop_takeWhile_length] at hkd
  exact sorted_dropWhile_not_below hs kd hkd

theorem lutFrom_getD (kps : List KeypointData) :
    ∀ (fuel y v : Nat) (rem : List KeypointData), SortedByY rem →
    (∀ c : ℚ, (y : ℚ) ≤ c → kps.countP (rowBelow c) = v + rem.countP (rowBelow c)) →
    ∀ j < fuel, (lutFrom y fuel v rem).getD j 0 = kps.countP (rowBelow ((y + j : Nat) : ℚ)) := by
  intro fuel
  induction fuel with
  | zero => intro y v rem _ _ j hj; omega
  | succ fuel ih =>
    intro y v rem hrem hk j hj
    rw [lutFrom]
    simp only [advanceCursor_eq]
    cases j with
    | zero =>
      simp only [List.getD_cons_zero, Nat.add_zero]
      rw [hk y (le_refl _), sorted_countP_eq_takeWhile_length hrem]
    | succ j =>
      simp only [List.getD_cons_succ]
      have hrem' : SortedByY (rem.dropWhile (rowBelow (y : ℚ))) :=
        List.Pairwise.sublist (List.dropWhile_sublist _) hrem
      have hk' : ∀ c : ℚ, ((y + 1 : Nat) : ℚ) ≤ c →
          kps.countP (rowBelow c)
            = (v + (rem.takeWhile (rowBelow (y : ℚ))).length)
              + (rem.dropWhile (rowBelow (y : ℚ))).countP (rowBelow c) := by
        intro c hc
        have hyc : (y : ℚ) ≤ c := by
          push_cast at hc ⊢
          linarith
        rw [hk c hyc]
        conv_lhs => rw [← List.takeWhile_append_dropWhile (p := rowBelow (y : ℚ)) (l := rem)]
        rw [List.countP_append]
        have htw : (rem.takeWhile (rowBelow (y : ℚ))).countP (rowBelow c)
            = (rem.takeWhile (rowBelow (y : ℚ))).length := by
          rw [List.countP_eq_length]
          intro kd hkd
          have h1 := List.mem_takeWhile_imp hkd
          simp only [rowBelow, decide_eq_true_eq] at h1 ⊢
          have : ((y : ℚ)) < ((y + 1 : Nat) : ℚ) := by push_cast; linarith
          linarith
        omega
      have := ih (y + 1) (v + (rem.takeWhile (rowBelow (y : ℚ))).length)
        (rem.dropWhile (rowBelow (y : ℚ))) hrem' hk' j (by omega)
      rw [this, show y + 1 + j = y + (j + 1) from by omega]

theorem corner_row_LUT_getD {kps : List KeypointData} (hs : SortedByY kps) (H : Nat) :
    ∀ r < H, (corner_row_LUT kps H).getD r 0 = kps.countP (rowBelow (r : ℚ)) := by
  intro r hr
  rw [corner_row_LUT]
  have := lutFrom_getD kps H 0 0 kps hs (fun c _ => by omega) r hr
  simpa using this

-- ## Claim C6

/-- C6: for any two descriptors of the agreed byte length `L` (byte values
below 256), `hammingDistance512` returns exactly the Hamming distance (the
number of differing bits), computed by byte-wise XOR plus population count
summed over all `L` bytes, and the value lies in `[0, 8 * L]`. -/
theorem c6_hammingDistance512_correct (L : Nat) (x y : List Nat)
    (hx : x.length = L) (hy : y.length = L)
    (hbx : ∀ b ∈ x, b < 256) (hby : ∀ b ∈ y, b < 256) :
    hammingDistance512 L x y = numDiffBits L x y ∧ hammingDistance512 L x y ≤ 8 * L := by
  have he := hammingDistance512_eq_numDiffBits L x y hx hy hbx hby
  exact ⟨he, he ▸ numDiffBits_le L x y⟩

theorem c6_witness :
    hammingDistance512 2 [3, 255] [0, 0] = numDiffBits 2 [3, 255] [0, 0]
    ∧ hammingDistance512 2 [3, 255] [0, 0] ≤ 8 * 2 :=
  c6_hammingDistance512_correct 2 [3, 255] [0, 0] rfl rfl (by decide) (by decide)

-- ## Claim C2

/-- C2: every constructed row lookup table has length equal to the image
height, entry `table[r]` equals the number of target keypoints whose row is
strictly less than `r`, and entries are monotonically non-decreasing. -/
theorem c2_corner_row_LUT_correct (kps : List KeypointData) (H : Nat)
    (hs : SortedByY kps) :
    (corner_row_LUT kps H).length = H
    ∧ (∀ r < H, (corner_row_LUT kps H).getD r 0 = kps.countP (rowBelow (r : ℚ)))
    ∧ ∀ r, r + 1 < H →
        (corner_row_LUT kps H).getD r 0 ≤ (corner_row_LUT kps H).getD (r + 1) 0 := by
  refine ⟨corner_row_LUT_length kps H, corner_row_LUT_getD hs H, ?_⟩
  intro r hr
  rw [corner_row_LUT_getD hs H r (by omega), corner_row_LUT_getD hs H (r + 1) hr]
  apply List.countP_mono_left
  intro kd _ h
  simp only [rowBelow, decide_eq_true_eq] at h ⊢
  have hc : ((r : ℚ)) ≤ ((r + 1 : Nat) : ℚ) := by push_cast; linarith
  linarith

theorem c2_witness :
    (corner_row_LUT kpsPair 4).length = 4
    ∧ (∀ r < 4, (corner_row_LUT kpsPair 4).getD r 0 = kpsPair.countP (rowBelow (r : ℚ)))
    ∧ ∀ r, r + 1 < 4 →
        (corner_row_LUT kpsPair 4).getD r 0 ≤ (corner_row_LUT kpsPair 4).getD (r + 1) 0 :=
  c2_corner_row_LUT_correct kpsPair 4 (by norm_num [SortedByY, kpsPair])

-- ## Claim C8 (corrected)

/-- C8 counterexample: for a sorted single-keypoint frame whose keypoint sits
on row `image_height - 1`, the final LUT entry is 0, not the keypoint count 1:
the table only counts rows strictly below `image_height - 1`. -/
theorem c8_counterexample :
    SortedByY kpsRowEdge
    ∧ (corner_row_LUT kpsRowEdge 2).getD (2 - 1) 0 ≠ kpsRowEdge.length := by
  constructor
  · simp [SortedByY, kpsRowEdge]
  · decide

/-- C8 amended: the final entry `table[H-1]` equals the number of target
keypoints whose row is strictly below `H - 1`; in particular it equals the
total keypoint count whenever every keypoint row is strictly below `H - 1`. -/
theorem c8_last_entry_amended (kps : List KeypointData) (H : Nat)
    (hs : SortedByY kps) (hH : 1 ≤ H) :
    (corner_row_LUT kps H).getD (H - 1) 0 = kps.countP (rowBelow ((H - 1 : Nat) : ℚ))
    ∧ ((∀ kd ∈ kps, kd.my < ((H : ℚ) - 1)) →
        (corner_row_LUT kps H).getD (H - 1) 0 = kps.length) := by
  have hchar := corner_row_LUT_getD hs H (H - 1) (by omega)
  refine ⟨hchar, fun hrows => ?_⟩
  rw [hchar, List.countP_eq_length]
  intro kd hkd
  simp only [rowBelow, decide_eq_true_eq]
  have hcast : (((H - 1 : Nat)) : ℚ) = (H : ℚ) - 1 := by
    rw [Nat.cast_sub hH]
    norm_num
  rw [hcast]
  exact hrows kd hkd

theorem c8_witness :
    (corner_row_LUT [⟨0, 0, 0⟩] 2).getD (2 - 1) 0
        = List.countP (rowBelow ((2 - 1 : Nat) : ℚ)) [⟨0, 0, 0⟩]
    ∧ ((∀ kd ∈ [(⟨0, 0, 0⟩ : KeypointData)], kd.my < ((2 : ℚ) - 1)) →
        (corner_row_LUT [⟨0, 0, 0⟩] 2).getD (2 - 1) 0
          = List.length [(⟨0, 0, 0⟩ : KeypointData)]) :=
  c8_last_entry_amended [⟨0, 0, 0⟩] 2 (by simp [SortedByY]) (by omega)

-- ## Claim C9 (corrected)

/-- C9 counterexample: a frame-k with no descriptor data violates the
claimed precondition list, yet `track` performs the matching (the code only
checks `hasDescriptors` on frame k+1, lines 35-37). -/
theorem c9_counterexample :
    frameNoDescriptors.hasDescriptors = false
    ∧ track 7 frameNoDescriptors frameOkLater inpEmpty = some (matchFeatures inpEmpty) := by
  constructor
  · rfl
  · rfl

/-- C9 amended: `track` aborts with a fatal check failure, performing no
matching, whenever one of the preconditions it actually checks is violated:
missing keypoint measurements or track ids in either frame, missing
descriptors in frame k+1 (frame k's descriptor presence is not checked), a
camera geometry not matching the tracker's camera, a timestamp of frame k+1
not strictly greater than frame k's, or frame k+1's descriptor matrix row
count unequal to its descriptor byte length or keypoint count unequal to its
descriptor count. -/
theorem c9_track_aborts_amended (cameraId : Nat) (frame_k frame_kp1 : FrameModel)
    (inp : MatchingInput)
    (hviol : frame_k.hasKeypointMeasurements = false
      ∨ frame_kp1.hasKeypointMeasurements = false
      ∨ frame_k.cameraGeometryId ≠ some cameraId
      ∨ frame_kp1.cameraGeometryId ≠ some cameraId
      ∨ frame_k.hasTrackIds = false
      ∨ frame_kp1.hasTrackIds = false
      ∨ ¬(frame_kp1.timestampNanoseconds > frame_k.timestampNanoseconds)
      ∨ frame_kp1.hasDescriptors = false
      ∨ frame_kp1.descriptorRows ≠ frame_kp1.descriptorSizeBytes
      ∨ frame_kp1.keypointMeasurementCols ≠ frame_kp1.descriptorCols) :
    track cameraId frame_k frame_kp1 inp = none := by
  unfold track
  rcases hviol with h | h | h | h | h | h | h | h | h | h <;> simp [h]

theorem c9_witness :
    track 7 { frameOk with hasKeypointMeasurements := false } frameOkLater inpEmpty = none :=
  c9_track_aborts_amended 7 _ _ inpEmpty (Or.inl rfl)

-- ## Scan-state helper lemmas

theorem acceptStep_best (inp : MatchingInput) (descriptor_k : List Nat)
    (st : ScanState) (kd : KeypointData) :
    (acceptStep inp descriptor_k st kd).best = some kd
    ∨ (acceptStep inp descriptor_k st kd).best = st.best := by
  unfold acceptStep
  by_cases h : scoreCandidate inp descriptor_k kd > st.best_score
  · left; simp [h]
  · right; simp [h]

theorem narrowStep_best (inp : MatchingInput) (fl : Nat → Bool) (descriptor_k : List Nat)
    (bl br : ℤ) (st : ScanState) (kd : KeypointData) :
    (narrowStep inp fl descriptor_k bl br st kd).best = some kd
    ∨ (narrowStep inp fl descriptor_k bl br st kd).best = st.best := by
  unfold narrowStep
  by_cases h1 : kd.mx < (bl : ℚ) ∨ kd.mx > (br : ℚ)
  · rw [if_pos h1]; right; rfl
  · rw [if_neg h1]
    by_cases h2 : fl kd.index = true
    · rw [if_pos h2]; right; rfl
    · rw [if_neg h2]; exact acceptStep_best inp descriptor_k st kd

theorem wideStep_best (inp : MatchingInput) (fl : Nat → Bool) (descriptor_k : List Nat)
    (bl br : ℤ) (st : ScanState) (kd : KeypointData) :
    (wideStep inp fl descriptor_k bl br st kd).best = some kd
    ∨ (wideStep inp fl descriptor_k bl br st kd).best = st.best := by
  unfold wideStep
  by_cases h1 : (st.processed kd.index || fl kd.index) = true
  · rw [if_pos h1]; right; rfl
  · rw [if_neg h1]
    by_cases h2 : kd.mx < (bl : ℚ) ∨ kd.mx > (br : ℚ)
    · rw [if_pos h2]; right; rfl
    · rw [if_neg h2]; exact acceptStep_best inp descriptor_k st kd

theorem narrowStep_unclaimed (inp : MatchingInput) (fl : Nat → Bool) (descriptor_k : List Nat)
    (bl br : ℤ) (st : ScanState) (kd : KeypointData)
    (h : ∀ b, st.best = some b → fl b.index = false) :
    ∀ b, (narrowStep inp fl descriptor_k bl br st kd).best = some b → fl b.index = false := by
  intro b hb
  unfold narrowStep at hb
  by_cases h1 : kd.mx < (bl : ℚ) ∨ kd.mx > (br : ℚ)
  · rw [if_pos h1] at hb; exact h b hb
  · rw [if_neg h1] at hb
    by_cases h2 : fl kd.index = true
    · rw [if_pos h2] at hb; exact h b hb
    · rw [if_neg h2] at hb
      rcases acceptStep_best inp descriptor_k st kd with h3 | h3
      · rw [h3] at hb
        obtain rfl := Option.some.inj hb
        exact Bool.eq_false_iff.mpr h2
      · rw [h3] at hb
        exact h b hb

theorem wideStep_unclaimed (inp : MatchingInput) (fl : Nat → Bool) (descriptor_k : List Nat)
    (bl br : ℤ) (st : ScanState) (kd : KeypointData)
    (h : ∀ b, st.best = some b → fl b.index = false) :
    ∀ b, (wideStep inp fl descriptor_k bl br st kd).best = some b → fl b.index = false := by
  intro b hb
  unfold wideStep at hb
  by_cases h1 : (st.processed kd.index || fl kd.index) = true
  · rw [if_pos h1] at hb; exact h b hb
  · rw [if_neg h1] at hb
    have h2 : fl kd.index = false := by
      rcases Bool.or_eq_false_iff.mp (Bool.eq_false_iff.mpr h1) with ⟨_, hf⟩
      exact hf
    by_cases h3 : kd.mx < (bl : ℚ) ∨ kd.mx > (br : ℚ)
    · rw [if_pos h3] at hb; exact h b hb
    · rw [if_neg h3] at hb
      rcases acceptStep_best inp descriptor_k st kd with h4 | h4
      · rw [h4] at hb
        obtain rfl := Option.some.inj hb
        exact h2
      · rw [h4] at hb
        exact h b hb

theorem foldl_state_invariant {σ α : Type*} (step : σ → α → σ) (P : σ → Prop) :
    ∀ cs : List α, (∀ st kd, kd ∈ cs → P st → P (step st kd)) →
    ∀ st, P st → P (cs.foldl step st) := by
  intro cs
  induction cs with
  | nil => intro _ st h; exact h
  | cons a t ih =>
    intro hstep st h
    rw [List.foldl_cons]
    exact ih (fun st' kd hk => hstep st' kd (List.mem_cons_of_mem a hk)) _
      (hstep st a (List.mem_cons_self a t) h)

theorem foldl_best_mem (step : ScanState → KeypointData → ScanState)
    (hstep : ∀ st kd, (step st kd).best = some kd ∨ (step st kd).best = st.best) :
    ∀ (cs : List KeypointData) (st : ScanState) (b : KeypointData),
      (cs.foldl step st).best = some b → b ∈ cs ∨ st.best = some b := by
  intro cs
  induction cs with
  | nil => intro st b hb; right; exact hb
  | cons a t ih =>
    intro st b hb
    rw [List.foldl_cons] at hb
    rcases ih (step st a) b hb with h | h
    · left; exact List.mem_cons_of_mem a h
    · rcases hstep st a with h2 | h2
      · rw [h] at h2
        obtain rfl := Option.some.inj h2.symm
        left; exact List.mem_cons_self a t
      · rw [h] at h2
        right; exact h2.symm

theorem narrowScan_unclaimed (inp : MatchingInput) (lut : List Nat)
    (fl : Nat → Bool) (i : Nat) :
    ∀ b, (narrowScan inp lut fl i).best = some b → fl b.index = false := by
  unfold narrowScan
  apply foldl_state_invariant
    (narrowStep inp fl (inp.descriptorsK.getD i []) (boundLeftNearest inp i)
      (boundRightNearest inp i))
    (fun st => ∀ b, st.best = some b → fl b.index = false)
  · intro st kd _ h
    exact narrowStep_unclaimed inp fl _ _ _ st kd h
  · intro b hb
    simp [initScanState] at hb

theorem finalScan_unclaimed (inp : MatchingInput) (lut : List Nat)
    (fl : Nat → Bool) (i : Nat) :
    ∀ b, (finalScan inp lut fl i).best = some b → fl b.index = false := by
  unfold finalScan
  by_cases hf : (narrowScan inp lut fl i).found = true
  · simp only [hf, if_true]
    exact narrowScan_unclaimed inp lut fl i
  · simp only [hf, Bool.false_eq_true, if_false]
    apply foldl_state_invariant
      (wideStep inp fl (inp.descriptorsK.getD i []) (boundLeftNear inp i)
        (boundRightNear inp i))
      (fun st => ∀ b, st.best = some b → fl b.index = false)
    · intro st kd _ h
      exact wideStep_unclaimed inp fl _ _ _ st kd h
    · exact narrowScan_unclaimed inp lut fl i

theorem narrowScan_best_mem (inp : MatchingInput) (lut : List Nat)
    (fl : Nat → Bool) (i : Nat) (b : KeypointData)
    (hb : (narrowScan inp lut fl i).best = some b) :
    b ∈ narrowCandidates inp lut i := by
  unfold narrowScan at hb
  rcases foldl_best_mem _ (fun st kd => narrowStep_best inp fl _ _ _ st kd) _ _ _ hb with h | h
  · exact h
  · simp [initScanState] at h

theorem finalScan_best_mem (inp : MatchingInput) (lut : List Nat)
    (fl : Nat → Bool) (i : Nat) (b : KeypointData)
    (hb : (finalScan inp lut fl i).best = some b) :
    b ∈ narrowCandidates inp lut i ∨ b ∈ nearCandidates inp lut i := by
  unfold finalScan at hb
  by_cases hf : (narrowScan inp lut fl i).found = true
  · rw [if_pos hf] at hb
    exact Or.inl (narrowScan_best_mem inp lut fl i b hb)
  · rw [if_neg hf] at hb
    rcases foldl_best_mem _ (fun st kd => wideStep_best inp fl _ _ _ st kd) _ _ _ hb with h | h
    · exact Or.inr h
    · exact Or.inl (narrowScan_best_mem inp lut fl i b h)

theorem processSource_spec (inp : MatchingInput) (lut : List Nat)
    (fl : Nat → Bool) (i : Nat) :
    ((processSource inp lut fl i).2 = none ∧ (processSource inp lut fl i).1 = fl)
    ∨ ∃ b : KeypointData,
        (finalScan inp lut fl i).best = some b
        ∧ fl b.index = false
        ∧ (processSource inp lut fl i).2 = some ⟨b.index, i, 0⟩
        ∧ (processSource inp lut fl i).1 = updateFlag fl b.index := by
  unfold processSource
  by_cases hf : (finalScan inp lut fl i).found = true
  · cases hb : (finalScan inp lut fl i).best with
    | none => left; simp [hf, hb]
    | some b =>
      right
      exact ⟨b, rfl, finalScan_unclaimed inp lut fl i b hb, by simp [hf, hb], by simp [hf, hb]⟩
  · left; simp [hf]

theorem matchLoop_emitted (inp : MatchingInput) (lut : List Nat) (P : MatchRecord → Prop)
    (hP : ∀ (fl : Nat → Bool) (i : Nat) (m : MatchRecord),
      (processSource inp lut fl i).2 = some m → P m) :
    ∀ (is : List Nat) (fl : Nat → Bool) (acc : List MatchRecord),
      (∀ r ∈ acc, P r) → ∀ r ∈ matchLoop inp lut is fl acc, P r := by
  intro is
  induction is with
  | nil =>
    intro fl acc hacc r hr
    rw [matchLoop] at hr
    exact hacc r hr
  | cons i rest ih =>
    intro fl acc hacc r hr
    rw [matchLoop] at hr
    refine ih _ _ ?_ r hr
    intro r' hr'
    rcases List.mem_append.mp hr' with h | h
    · exact hacc r' h
    · rcases ho : (processSource inp lut fl i).2 with _ | m
      · rw [ho] at h; simp at h
      · rw [ho] at h
        simp only [Option.toList_some, List.mem_singleton] at h
        subst h
        exact hP fl i r' ho

-- ## Claim C5

/-- C5: every emitted match record pairs the accepted target index with the
source index but carries the placeholder score `0`, not the internally
computed Hamming-based score (lines 203-204 pass `0.0`). -/
theorem c5_emitted_score_zero (inp : MatchingInput) :
    ∀ r ∈ matchFeatures inp, r.score = 0 := by
  unfold matchFeatures
  refine matchLoop_emitted inp _ (fun r => r.score = 0) ?_ _ _ _ (by simp)
  intro fl i m hm
  rcases processSource_spec inp _ fl i with ⟨hnone, _⟩ | ⟨b, _, _, hsome, _⟩
  · rw [hnone] at hm; cases hm
  · rw [hsome] at hm
    obtain rfl := Option.some.inj hm
    rfl

theorem c5_witness :
    (⟨0, 0, 0⟩ : MatchRecord) ∈ matchFeatures inpIdentity
    ∧ (⟨0, 0, 0⟩ : MatchRecord).score = 0 := by
  have heval : matchFeatures inpIdentity = [⟨0, 0, 0⟩, ⟨1, 1, 0⟩] := by
    norm_num [matchFeatures, matchLoop, processSource, finalScan, narrowScan,
      narrowCandidates, nearCandidates, windowSlice, corner_row_LUT, lutFrom,
      advanceCursor, nearestTop, nearestBottom, nearTop, nearBottom,
      idxNearestLow, idxNearestHigh, idxNearLow, idxNearHigh, heightBound,
      predictedOf, boundLeftNearest, boundRightNearest, boundLeftNear,
      boundRightNear, initScanState, initialBestScore, narrowStep, wideStep,
      acceptStep, scoreCandidate,
      show hammingDistance512 1 [1] [2] = 2 from by decide,
      show hammingDistance512 1 [1] [1] = 0 from by decide,
      show hammingDistance512 1 [2] [2] = 0 from by decide,
      updateFlag, cppTrunc, clamp, List.foldl, inpIdentity, inpTwin, kpsPair]
  have hmem : (⟨0, 0, 0⟩ : MatchRecord) ∈ matchFeatures inpIdentity := by
    rw [heval]; simp
  exact ⟨hmem, c5_emitted_score_zero inpIdentity _ hmem⟩

-- ## Claim C3

/-- C3: the running best score starts at
`static_cast<int>(descriptor_bit_width * match_threshold_ratio)`, so when that
product is the exact integer `s`, a candidate scoring exactly `s` leaves the
scan state unchanged apart from processed-bookkeeping (rejected), while a
candidate scoring `s + 1` is accepted (becomes `it_best` with `found` set)
when it passes the column filter and the exclusivity filter and no better
candidate has raised the running best yet. -/
theorem c3_threshold_boundary (inp : MatchingInput) (descriptor_k : List Nat)
    (fl : Nat → Bool) (bl br : ℤ) (st : ScanState) (kd : KeypointData) (s : ℤ)
    (hint : (8 * inp.descriptorSizeBytes : ℚ) * inp.thresholdBitsFrac = (s : ℚ))
    (hbs : st.best_score = s) :
    (initScanState inp).best_score = s
    ∧ (scoreCandidate inp descriptor_k kd = s →
        acceptStep inp descriptor_k st kd
          = { st with processed := updateFlag st.processed kd.index,
                      nProcessed := st.nProcessed + 1 })
    ∧ (scoreCandidate inp descriptor_k kd = s + 1 →
        (acceptStep inp descriptor_k st kd).found = true
        ∧ (acceptStep inp descriptor_k st kd).best = some kd
        ∧ (acceptStep inp descriptor_k st kd).best_score = s + 1)
    ∧ (¬(kd.mx < (bl : ℚ)) → ¬(kd.mx > (br : ℚ)) → fl kd.index = false →
        narrowStep inp fl descriptor_k bl br st kd = acceptStep inp descriptor_k st kd) := by
  refine ⟨?_, ?_, ?_, ?_⟩
  · show initialBestScore inp = s
    unfold initialBestScore
    rw [hint, cppTrunc_intCast]
  · intro hsc
    simp only [acceptStep, hsc, hbs, gt_iff_lt, lt_self_iff_false, if_false]
  · intro hsc
    simp only [acceptStep, hsc, hbs, gt_iff_lt]
    rw [if_pos (by omega : s < s + 1)]
    exact ⟨rfl, rfl, rfl⟩
  · intro h1 h2 h3
    unfold narrowStep
    rw [if_neg (not_or.mpr ⟨h1, h2⟩), if_neg (by simp [h3])]

theorem c3_witness :
    (initScanState inpThresholdEq).best_score = 4
    ∧ acceptStep inpThresholdEq [15] (initScanState inpThresholdEq) ⟨0, 0, 1⟩
        = { initScanState inpThresholdEq with
            processed := updateFlag (initScanState inpThresholdEq).processed
              (⟨0, 0, 1⟩ : KeypointData).index,
            nProcessed := (initScanState inpThresholdEq).nProcessed + 1 }
    ∧ (acceptStep inpThresholdUp [7] (initScanState inpThresholdUp) ⟨0, 0, 1⟩).found = true
    ∧ (acceptStep inpThresholdUp [7] (initScanState inpThresholdUp) ⟨0, 0, 1⟩).best
        = some ⟨0, 0, 1⟩
    ∧ narrowStep inpThresholdEq (fun _ => false) [15] (-1) 1
        (initScanState inpThresholdEq) ⟨0, 0, 1⟩
        = acceptStep inpThresholdEq [15] (initScanState inpThresholdEq) ⟨0, 0, 1⟩ := by
  have hbsEq : (initScanState inpThresholdEq).best_score = 4 := by
    norm_num [initScanState, initialBestScore, inpThresholdEq, cppTrunc]
  have hbsUp : (initScanState inpThresholdUp).best_score = 4 := by
    norm_num [initScanState, initialBestScore, inpThresholdUp, inpThresholdEq, cppTrunc]
  obtain ⟨h1, h2, _, h4⟩ := c3_threshold_boundary inpThresholdEq [15] (fun _ => false)
    (-1) 1 (initScanState inpThresholdEq) ⟨0, 0, 1⟩ 4
    (by norm_num [inpThresholdEq]) hbsEq
  obtain ⟨_, _, h3, _⟩ := c3_threshold_boundary inpThresholdUp [7] (fun _ => false)
    (-1) 1 (initScanState inpThresholdUp) ⟨0, 0, 1⟩ 4
    (by norm_num [inpThresholdUp, inpThresholdEq]) hbsUp
  have hs3 := h3 (by decide)
  exact ⟨h1, h2 (by decide), hs3.1, hs3.2.1,
    h4 (by decide) (by decide) rfl⟩

-- ## Claim C4

/-- C4: the wide-window search runs only if the narrow window accepted no
candidate (`if (!found)`, line 174); when it runs it skips every candidate
already processed in the narrow phase or already claimed by exclusivity
(line 179), and scores the remaining candidates with exactly the same
accept step as the narrow phase. -/
theorem c4_wide_phase_gating (inp : MatchingInput) (lut : List Nat) (fl : Nat → Bool)
    (i : Nat) (descriptor_k : List Nat) (bl br : ℤ) (st : ScanState) (kd : KeypointData) :
    ((narrowScan inp lut fl i).found = true →
        finalScan inp lut fl i = narrowScan inp lut fl i)
    ∧ ((st.processed kd.index || fl kd.index) = true →
        wideStep inp fl descriptor_k bl br st kd = st)
    ∧ (st.processed kd.index = false → fl kd.index = false →
        ¬(kd.mx < (bl : ℚ)) → ¬(kd.mx > (br : ℚ)) →
        wideStep inp fl descriptor_k bl br st kd = acceptStep inp descriptor_k st kd)
    ∧ (¬(kd.mx < (bl : ℚ)) → ¬(kd.mx > (br : ℚ)) → fl kd.index = false →
        narrowStep inp fl descriptor_k bl br st kd = acceptStep inp descriptor_k st kd) := by
  refine ⟨?_, ?_, ?_, ?_⟩
  · intro h
    unfold finalScan
    simp [h]
  · intro h
    unfold wideStep
    rw [if_pos h]
  · intro h1 h2 h3 h4
    unfold wideStep
    rw [if_neg (by simp [h1, h2]), if_neg (not_or.mpr ⟨h3, h4⟩)]
  · intro h1 h2 h3
    unfold narrowStep
    rw [if_neg (not_or.mpr ⟨h1, h2⟩), if_neg (by simp [h3])]

theorem c4_witness :
    finalScan inpThresholdUp (corner_row_LUT inpThresholdUp.keypointsBy_y 4) (fun _ => false) 0
      = narrowScan inpThresholdUp (corner_row_LUT inpThresholdUp.keypointsBy_y 4)
          (fun _ => false) 0
    ∧ wideStep inpThresholdUp (fun _ => false) [7] (-1) 1
        ⟨false, 0, none, fun _ => true, 0⟩ ⟨0, 0, 1⟩
        = ⟨false, 0, none, fun _ => true, 0⟩
    ∧ wideStep inpThresholdUp (fun _ => false) [7] (-1) 1
        (initScanState inpThresholdUp) ⟨0, 0, 1⟩
        = acceptStep inpThresholdUp [7] (initScanState inpThresholdUp) ⟨0, 0, 1⟩
    ∧ narrowStep inpThresholdUp (fun _ => false) [7] (-1) 1
        (initScanState inpThresholdUp) ⟨0, 0, 1⟩
        = acceptStep inpThresholdUp [7] (initScanState inpThresholdUp) ⟨0, 0, 1⟩ := by
  have hfound : (narrowScan inpThresholdUp
      (corner_row_LUT inpThresholdUp.keypointsBy_y 4) (fun _ => false) 0).found = true := by
    norm_num [narrowScan, narrowCandidates, windowSlice, corner_row_LUT, lutFrom,
      advanceCursor, nearestTop, nearestBottom, idxNearestLow, idxNearestHigh,
      heightBound, predictedOf, boundLeftNearest, boundRightNearest,
      initScanState, initialBestScore, narrowStep, acceptStep, scoreCandidate,
      show hammingDistance512 1 [7] [0] = 3 from by decide,
      updateFlag, cppTrunc, clamp, List.foldl, inpThresholdUp, inpThresholdEq]
  obtain ⟨h1, _, _, _⟩ := c4_wide_phase_gating inpThresholdUp
    (corner_row_LUT inpThresholdUp.keypointsBy_y 4) (fun _ => false) 0 [7] (-1) 1
    (initScanState inpThresholdUp) ⟨0, 0, 1⟩
  obtain ⟨_, h2, _, _⟩ := c4_wide_phase_gating inpThresholdUp
    (corner_row_LUT inpThresholdUp.keypointsBy_y 4) (fun _ => false) 0 [7] (-1) 1
    (⟨false, 0, none, fun _ => true, 0⟩ : ScanState) ⟨0, 0, 1⟩
  obtain ⟨_, _, h3, h4⟩ := c4_wide_phase_gating inpThresholdUp
    (corner_row_LUT inpThresholdUp.keypointsBy_y 4) (fun _ => false) 0 [7] (-1) 1
    (initScanState inpThresholdUp) ⟨0, 0, 1⟩
  exact ⟨h1 hfound, h2 rfl, h3 rfl rfl (by decide) (by decide),
    h4 (by decide) (by decide) rfl⟩

-- ## Claim C1

theorem updateFlag_self (f : Nat → Bool) (i : Nat) : updateFlag f i i = true := by
  simp [updateFlag]

theorem updateFlag_of_true {f : Nat → Bool} {j : Nat} (i : Nat) (h : f j = true) :
    updateFlag f i j = true := by
  unfold updateFlag
  by_cases hj : j = i <;> simp [hj, h]

theorem matchLoop_injective (inp : MatchingInput) (lut : List Nat) :
    ∀ (is : List Nat) (fl : Nat → Bool) (acc : List MatchRecord),
      is.Nodup →
      (∀ r ∈ acc, fl r.index_kp1 = true) →
      (∀ r ∈ acc, r.index_k ∉ is) →
      acc.Pairwise (fun a b => a.index_kp1 ≠ b.index_kp1) →
      acc.Pairwise (fun a b => a.index_k ≠ b.index_k) →
      (matchLoop inp lut is fl acc).Pairwise (fun a b => a.index_kp1 ≠ b.index_kp1)
      ∧ (matchLoop inp lut is fl acc).Pairwise (fun a b => a.index_k ≠ b.index_k) := by
  intro is
  induction is with
  | nil =>
    intro fl acc _ _ _ h1 h2
    rw [matchLoop]
    exact ⟨h1, h2⟩
  | cons i rest ih =>
    intro fl acc hnd hflag hnotin h1 h2
    rw [matchLoop]
    rcases processSource_spec inp lut fl i with ⟨hnone, hfl⟩ | ⟨b, _, hbfl, hsome, hfl⟩
    · rw [hnone, hfl]
      simp only [Option.toList_none, List.append_nil]
      exact ih fl acc (List.Nodup.of_cons hnd) hflag
        (fun r hr hmem => hnotin r hr (List.mem_cons_of_mem i hmem)) h1 h2
    · rw [hsome, hfl]
      simp only [Option.toList_some]
      apply ih
      · exact List.Nodup.of_cons hnd
      · intro r hr
        rcases List.mem_append.mp hr with h | h
        · exact updateFlag_of_true b.index (hflag r h)
        · rw [List.mem_singleton.mp h]
          exact updateFlag_self fl b.index
      · intro r hr
        rcases List.mem_append.mp hr with h | h
        · exact fun hmem => hnotin r h (List.mem_cons_of_mem i hmem)
        · rw [List.mem_singleton.mp h]
          exact (List.nodup_cons.mp hnd).1
      · rw [List.pairwise_append]
        refine ⟨h1, List.pairwise_singleton _ _, ?_⟩
        intro r hr r' hr'
        rw [List.mem_singleton.mp hr']
        intro heq
        have hto := hflag r hr
        rw [heq] at hto
        exact absurd (hto.symm.trans hbfl) (by decide)
      · rw [List.pairwise_append]
        refine ⟨h2, List.pairwise_singleton _ _, ?_⟩
        intro r hr r' hr'
        rw [List.mem_singleton.mp hr']
        intro heq
        exact hnotin r hr (heq ▸ List.mem_cons_self i rest)

/-- C1: for every call to `matchFeatures`, the output match list is injective
on both sides: no frame-(k+1) index appears in more than one emitted match
record, and no frame-k index appears in more than one emitted match record. -/
theorem c1_matches_injective (inp : MatchingInput) :
    (matchFeatures inp).Pairwise (fun a b => a.index_kp1 ≠ b.index_kp1)
    ∧ (matchFeatures inp).Pairwise (fun a b => a.index_k ≠ b.index_k) := by
  unfold matchFeatures
  exact matchLoop_injective inp _ (List.range inp.numPointsK) _ []
    (List.nodup_range _) (by simp) (by simp) List.Pairwise.nil List.Pairwise.nil

-- ## Claim C10

theorem windowSlice_sublist (kps : List KeypointData) (lut : List Nat) (top bottom : ℤ) :
    (windowSlice kps lut top bottom).Sublist kps :=
  (List.drop_sublist _ _).trans (List.take_sublist _ _)

theorem mem_take_mono {α : Type*} {l : List α} {m n : Nat} (h : m ≤ n) {a : α}
    (ha : a ∈ l.take m) : a ∈ l.take n := by
  have heq : l.take m = (l.take n).take m := by
    rw [List.take_take, Nat.min_eq_left h]
  rw [heq] at ha
  exact List.take_subset _ _ ha

theorem windowSlice_row_bound (inp : MatchingInput)
    (hs : SortedByY inp.keypointsBy_y) (hH : 1 ≤ inp.imageHeight)
    (top bottom : ℤ) (hbot : bottom ≤ heightBound inp) :
    ∀ kd ∈ windowSlice inp.keypointsBy_y
        (corner_row_LUT inp.keypointsBy_y inp.imageHeight) top bottom,
      kd.my < (inp.imageHeight : ℚ) - 1 := by
  intro kd hkd
  have hmem : kd ∈ inp.keypointsBy_y.take
      ((corner_row_LUT inp.keypointsBy_y inp.imageHeight).getD bottom.toNat 0) :=
    List.Sublist.mem hkd (List.drop_sublist _ _)
  have hhb : heightBound inp = (inp.imageHeight : ℤ) - 1 := rfl
  have hb : bottom.toNat < inp.imageHeight := by omega
  rw [corner_row_LUT_getD hs inp.imageHeight bottom.toNat hb] at hmem
  have hle : ((bottom.toNat : Nat) : ℚ) ≤ ((inp.imageHeight - 1 : Nat) : ℚ) := by
    have h1 : bottom.toNat ≤ inp.imageHeight - 1 := by omega
    exact_mod_cast h1
  have hmono : inp.keypointsBy_y.countP (rowBelow ((bottom.toNat : Nat) : ℚ))
      ≤ inp.keypointsBy_y.countP (rowBelow ((inp.imageHeight - 1 : Nat) : ℚ)) := by
    apply List.countP_mono_left
    intro x _ hx
    simp only [rowBelow, decide_eq_true_eq] at hx ⊢
    linarith
  have hmem2 := mem_take_mono hmono hmem
  have hx := sorted_take_countP hs ((inp.imageHeight - 1 : Nat) : ℚ) kd hmem2
  have hcast : ((inp.imageHeight - 1 : Nat) : ℚ) = (inp.imageHeight : ℚ) - 1 := by
    rw [Nat.cast_sub hH]
    norm_num
  rwa [hcast] at hx

/-- C10: a target keypoint whose row coordinate is at least
`image_height - 1` is never examined as a candidate in either search window
(both windows' end iterators are clamped to
`corner_row_LUT[min(bottom + 1, image_height - 1)]`, and that entry counts
only keypoints with row strictly below `image_height - 1`), and therefore
such a keypoint index never appears in any output match. -/
theorem c10_row_edge_never_matched (inp : MatchingInput)
    (hs : SortedByY inp.keypointsBy_y) (hH : 1 ≤ inp.imageHeight) :
    (∀ (i : Nat) (kd : KeypointData),
        (kd ∈ narrowCandidates inp (corner_row_LUT inp.keypointsBy_y inp.imageHeight) i
          ∨ kd ∈ nearCandidates inp (corner_row_LUT inp.keypointsBy_y inp.imageHeight) i) →
        kd.my < (inp.imageHeight : ℚ) - 1)
    ∧ ∀ r ∈ matchFeatures inp, ∃ kd ∈ inp.keypointsBy_y,
        kd.index = r.index_kp1 ∧ kd.my < (inp.imageHeight : ℚ) - 1 := by
  constructor
  · intro i kd hkd
    rcases hkd with h | h
    · exact windowSlice_row_bound inp hs hH _ _ (min_le_right _ _) kd h
    · exact windowSlice_row_bound inp hs hH _ _ (min_le_right _ _) kd h
  · unfold matchFeatures
    refine matchLoop_emitted inp _ _ ?_ _ _ _ (by simp)
    intro fl i m hm
    rcases processSource_spec inp _ fl i with ⟨hnone, _⟩ | ⟨b, hbest, _, hsome, _⟩
    · rw [hnone] at hm; cases hm
    · rw [hsome] at hm
      obtain rfl := Option.some.inj hm
      refine ⟨b, ?_, rfl, ?_⟩
      · rcases finalScan_best_mem inp _ fl i b hbest with h | h
        · exact List.Sublist.mem h (windowSlice_sublist _ _ _ _)
        · exact List.Sublist.mem h (windowSlice_sublist _ _ _ _)
      · rcases finalScan_best_mem inp _ fl i b hbest with h | h
        · exact windowSlice_row_bound inp hs hH _ _ (min_le_right _ _) b h
        · exact windowSlice_row_bound inp hs hH _ _ (min_le_right _ _) b h

theorem c10_witness :
    ∃ kd ∈ inpTwin.keypointsBy_y, kd.index = (⟨1, 0, 0⟩ : MatchRecord).index_kp1
      ∧ kd.my < (inpTwin.imageHeight : ℚ) - 1 := by
  have heval : matchFeatures inpTwin = [⟨1, 0, 0⟩, ⟨0, 1, 0⟩] := by
    norm_num [matchFeatures, matchLoop, processSource, finalScan, narrowScan,
      narrowCandidates, nearCandidates, windowSlice, corner_row_LUT, lutFrom,
      advanceCursor, nearestTop, nearestBottom, nearTop, nearBottom,
      idxNearestLow, idxNearestHigh, idxNearLow, idxNearHigh, heightBound,
      predictedOf, boundLeftNearest, boundRightNearest, boundLeftNear,
      boundRightNear, initScanState, initialBestScore, narrowStep, wideStep,
      acceptStep, scoreCandidate, hammingDistance512, popcnt, popcntLoop,
      updateFlag, cppTrunc, clamp, List.foldl, inpTwin, kpsPair]
  have hmain := c10_row_edge_never_matched inpTwin
    (by norm_num [SortedByY, inpTwin, kpsPair]) (by norm_num [inpTwin])
  exact hmain.2 ⟨1, 0, 0⟩ (by rw [heval]; simp)

-- ## Claim C7 helper lemmas

theorem cppTrunc_le_target {y s : ℚ} (hy : 0 ≤ y) (hs : 1 ≤ s) :
    (cppTrunc (y + 1/2 - s) : ℚ) ≤ y := by
  rcases le_or_lt 0 (y + 1/2 - s) with h | h
  · have := cppTrunc_le_self h
    linarith
  · have h0 := cppTrunc_nonpos h
    have h1 : (cppTrunc (y + 1/2 - s) : ℚ) ≤ 0 := by exact_mod_cast h0
    linarith

theorem target_lt_cppTrunc_high {y s : ℚ} (hy : 0 ≤ y) (hs : 0 ≤ s) :
    y < (cppTrunc (y + 1/2 + s) : ℚ) + 1 := by
  have h0 : 0 ≤ y + 1/2 + s := by linarith
  have := lt_cppTrunc_add_one h0
  linarith

theorem cppTrunc_col_left {x s : ℚ} (hx : 0 ≤ x) (hs : 0 ≤ s) :
    (cppTrunc (x - s) : ℚ) ≤ x := by
  rcases le_or_lt 0 (x - s) with h | h
  · have := cppTrunc_le_self h
    linarith
  · have h0 := cppTrunc_nonpos h
    have h1 : (cppTrunc (x - s) : ℚ) ≤ 0 := by exact_mod_cast h0
    linarith

theorem cppTrunc_col_right {x s : ℚ} (hx : 0 ≤ x) (hs : 1 ≤ s) :
    x ≤ (cppTrunc (x + s) : ℚ) := by
  have h0 : 0 ≤ x + s := by linarith
  have := lt_cppTrunc_add_one h0
  linarith

theorem initialBestScore_lt_bits (inp : MatchingInput)
    (hfrac : inp.thresholdBitsFrac < 1) (hL : 1 ≤ inp.descriptorSizeBytes) :
    initialBestScore inp < 8 * (inp.descriptorSizeBytes : ℤ) := by
  unfold initialBestScore
  have hL' : (1 : ℚ) ≤ (inp.descriptorSizeBytes : ℚ) := by exact_mod_cast hL
  have hLz : (1 : ℤ) ≤ (inp.descriptorSizeBytes : ℤ) := by exact_mod_cast hL
  have hbits : (0 : ℚ) < 8 * (inp.descriptorSizeBytes : ℚ) := by linarith
  rcases lt_or_le ((8 * inp.descriptorSizeBytes : ℚ) * inp.thresholdBitsFrac) 0 with h | h
  · have h0 := cppTrunc_nonpos h
    omega
  · have h1 := cppTrunc_le_self h
    have h2 : (8 * inp.descriptorSizeBytes : ℚ) * inp.thresholdBitsFrac
        < 8 * (inp.descriptorSizeBytes : ℚ) := by nlinarith
    have h3 : (cppTrunc ((8 * inp.descriptorSizeBytes : ℚ) * inp.thresholdBitsFrac) : ℚ)
        < ((8 * (inp.descriptorSizeBytes : ℤ) : ℤ) : ℚ) := by push_cast; linarith
    exact_mod_cast h3

theorem mem_slice_of_row_window {kps : List KeypointData} (hs : SortedByY kps)
    {kd : KeypointData} (hmem : kd ∈ kps) {c1 c2 : ℚ}
    (h1 : ¬(kd.my < c1)) (h2 : kd.my < c2) :
    kd ∈ (kps.take (kps.countP (rowBelow c2))).drop (kps.countP (rowBelow c1)) := by
  have hin_take : kd ∈ kps.take (kps.countP (rowBelow c2)) := by
    rcases List.mem_append.mp
        ((List.take_append_drop (kps.countP (rowBelow c2)) kps) ▸ hmem) with h | h
    · exact h
    · exact absurd h2 (sorted_drop_countP hs c2 kd h)
  have hA_le : kps.countP (rowBelow c1) ≤ kps.countP (rowBelow c2) := by
    apply List.countP_mono_left
    intro x _ hx
    simp only [rowBelow, decide_eq_true_eq] at hx ⊢
    have hc12 : c1 ≤ kd.my := not_lt.mp h1
    linarith
  have htt : (kps.take (kps.countP (rowBelow c2))).take (kps.countP (rowBelow c1))
      = kps.take (kps.countP (rowBelow c1)) := by
    rw [List.take_take, Nat.min_eq_left hA_le]
  rcases List.mem_append.mp
      ((List.take_append_drop (kps.countP (rowBelow c1))
        (kps.take (kps.countP (rowBelow c2)))) ▸ hin_take) with h | h
  · rw [htt] at h
    exact absurd (sorted_take_countP hs c1 kd h) h1
  · exact h

theorem self_mem_narrowCandidates (inp : MatchingInput)
    (hs : SortedByY inp.keypointsBy_y)
    (kd : KeypointData) (hmem : kd ∈ inp.keypointsBy_y)
    (hpred : predictedOf inp kd.index = (kd.mx, kd.my))
    (hrow0 : 0 ≤ kd.my) (hrow1 : kd.my < (inp.imageHeight : ℚ) - 1)
    (hsmall : 1 ≤ inp.smallSearchDistance) :
    kd ∈ narrowCandidates inp (corner_row_LUT inp.keypointsBy_y inp.imageHeight) kd.index := by
  have hpred2 : (predictedOf inp kd.index).2 = kd.my := by rw [hpred]
  have hH2 : 2 ≤ inp.imageHeight := by
    rcases Nat.lt_or_ge inp.imageHeight 2 with h | h
    · exfalso
      have hle : (inp.imageHeight : ℚ) ≤ 1 := by exact_mod_cast Nat.lt_succ_iff.mp h
      linarith
    · exact h
  have ht1_le : (cppTrunc ((predictedOf inp kd.index).2 + 1/2 - inp.smallSearchDistance) : ℚ)
      ≤ kd.my := by
    rw [hpred2]
    exact cppTrunc_le_target hrow0 hsmall
  have ht2_lt : kd.my
      < (cppTrunc ((predictedOf inp kd.index).2 + 1/2 + inp.smallSearchDistance) : ℚ) + 1 := by
    rw [hpred2]
    exact target_lt_cppTrunc_high hrow0 (by linarith)
  have htop_nonneg : 0 ≤ nearestTop inp kd.index := by
    unfold nearestTop idxNearestLow clamp heightBound
    omega
  have hbot_nonneg : 0 ≤ nearestBottom inp kd.index := by
    unfold nearestBottom idxNearestHigh clamp heightBound
    omega
  have htop_le : nearestTop inp kd.index ≤ (inp.imageHeight : ℤ) - 1 := by
    unfold nearestTop idxNearestLow clamp heightBound
    omega
  have hbot_le : nearestBottom inp kd.index ≤ (inp.imageHeight : ℤ) - 1 := by
    unfold nearestBottom idxNearestHigh clamp heightBound
    omega
  have htopNat_lt : (nearestTop inp kd.index).toNat < inp.imageHeight := by omega
  have hbotNat_lt : (nearestBottom inp kd.index).toNat < inp.imageHeight := by omega
  have hkey_top : (((nearestTop inp kd.index).toNat : Nat) : ℚ)
      = ((nearestTop inp kd.index : ℤ) : ℚ) := by
    exact_mod_cast congrArg (Int.cast : ℤ → ℚ) (Int.toNat_of_nonneg htop_nonneg)
  have hkey_bot : (((nearestBottom inp kd.index).toNat : Nat) : ℚ)
      = ((nearestBottom inp kd.index : ℤ) : ℚ) := by
    exact_mod_cast congrArg (Int.cast : ℤ → ℚ) (Int.toNat_of_nonneg hbot_nonneg)
  have hc1 : (((nearestTop inp kd.index).toNat : Nat) : ℚ) ≤ kd.my := by
    have h1 : nearestTop inp kd.index
        ≤ max (cppTrunc ((predictedOf inp kd.index).2 + 1/2 - inp.smallSearchDistance)) 0 := by
      unfold nearestTop idxNearestLow clamp heightBound
      omega
    have h2 : ((nearestTop inp kd.index : ℤ) : ℚ)
        ≤ ((max (cppTrunc ((predictedOf inp kd.index).2 + 1/2 - inp.smallSearchDistance)) 0 : ℤ) : ℚ) := by
      exact_mod_cast h1
    rw [hkey_top]
    have h3 : ((max (cppTrunc ((predictedOf inp kd.index).2 + 1/2 - inp.smallSearchDistance)) 0 : ℤ) : ℚ)
        = max ((cppTrunc ((predictedOf inp kd.index).2 + 1/2 - inp.smallSearchDistance) : ℤ) : ℚ) 0 := by
      push_cast
      rfl
    rw [h3] at h2
    exact h2.trans (max_le ht1_le hrow0)
  have hc2 : kd.my < (((nearestBottom inp kd.index).toNat : Nat) : ℚ) := by
    have h1 : min (cppTrunc ((predictedOf inp kd.index).2 + 1/2 + inp.smallSearchDistance) + 1)
        ((inp.imageHeight : ℤ) - 1) ≤ nearestBottom inp kd.index := by
      unfold nearestBottom idxNearestHigh clamp heightBound
      omega
    have h2 : ((min (cppTrunc ((predictedOf inp kd.index).2 + 1/2 + inp.smallSearchDistance) + 1)
        ((inp.imageHeight : ℤ) - 1) : ℤ) : ℚ) ≤ ((nearestBottom inp kd.index : ℤ) : ℚ) := by
      exact_mod_cast h1
    rw [hkey_bot]
    have h3 : ((min (cppTrunc ((predictedOf inp kd.index).2 + 1/2 + inp.smallSearchDistance) + 1)
        ((inp.imageHeight : ℤ) - 1) : ℤ) : ℚ)
        = min ((cppTrunc ((predictedOf inp kd.index).2 + 1/2 + inp.smallSearchDistance) : ℤ) + 1 : ℚ)
            ((inp.imageHeight : ℚ) - 1) := by
      push_cast
      rfl
    rw [h3] at h2
    refine lt_of_lt_of_le (lt_min ?_ hrow1) h2
    exact_mod_cast ht2_lt
  unfold narrowCandidates windowSlice
  rw [corner_row_LUT_getD hs inp.imageHeight _ htopNat_lt,
    corner_row_LUT_getD hs inp.imageHeight _ hbotNat_lt]
  exact mem_slice_of_row_window hs hmem (not_lt.mpr hc1) hc2

theorem acceptStep_accepted (inp : MatchingInput) (descriptor_k : List Nat)
    (st : ScanState) (kd : KeypointData)
    (h : st.best_score < scoreCandidate inp descriptor_k kd) :
    acceptStep inp descriptor_k st kd
      = { found := true, best_score := scoreCandidate inp descriptor_k kd,
          best := some kd, processed := updateFlag st.processed kd.index,
          nProcessed := st.nProcessed + 1 } := by
  have h' : scoreCandidate inp descriptor_k kd > st.best_score := h
  simp only [acceptStep, if_pos h']

theorem acceptStep_rejected (inp : MatchingInput) (descriptor_k : List Nat)
    (st : ScanState) (kd : KeypointData)
    (h : ¬(st.best_score < scoreCandidate inp descriptor_k kd)) :
    acceptStep inp descriptor_k st kd
      = { st with processed := updateFlag st.processed kd.index,
                  nProcessed := st.nProcessed + 1 } := by
  have h' : ¬(scoreCandidate inp descriptor_k kd > st.best_score) := h
  simp only [acceptStep, if_neg h']

theorem narrowStep_preserve_best (inp : MatchingInput) (fl : Nat → Bool)
    (desc_k : List Nat) (bl br : ℤ) (own : KeypointData) (bits : ℤ)
    (st : ScanState) (kd : KeypointData)
    (hkd : scoreCandidate inp desc_k kd ≤ bits - 1)
    (h : st.found = true ∧ st.best = some own ∧ st.best_score = bits) :
    (narrowStep inp fl desc_k bl br st kd).found = true
    ∧ (narrowStep inp fl desc_k bl br st kd).best = some own
    ∧ (narrowStep inp fl desc_k bl br st kd).best_score = bits := by
  obtain ⟨h1, h2, h3⟩ := h
  unfold narrowStep
  by_cases hc1 : kd.mx < (bl : ℚ) ∨ kd.mx > (br : ℚ)
  · rw [if_pos hc1]; exact ⟨h1, h2, h3⟩
  rw [if_neg hc1]
  by_cases hc2 : fl kd.index = true
  · rw [if_pos hc2]; exact ⟨h1, h2, h3⟩
  rw [if_neg hc2]
  rw [acceptStep_rejected inp desc_k st kd (by rw [h3]; omega)]
  exact ⟨h1, h2, h3⟩

theorem narrowStep_score_lt (inp : MatchingInput) (fl : Nat → Bool)
    (desc_k : List Nat) (bl br : ℤ) (st : ScanState) (kd : KeypointData) (bits : ℤ)
    (hst : st.best_score < bits) (hkd : scoreCandidate inp desc_k kd ≤ bits - 1) :
    (narrowStep inp fl desc_k bl br st kd).best_score < bits := by
  unfold narrowStep
  by_cases hc1 : kd.mx < (bl : ℚ) ∨ kd.mx > (br : ℚ)
  · rw [if_pos hc1]; exact hst
  rw [if_neg hc1]
  by_cases hc2 : fl kd.index = true
  · rw [if_pos hc2]; exact hst
  rw [if_neg hc2]
  by_cases hacc : st.best_score < scoreCandidate inp desc_k kd
  · rw [acceptStep_accepted inp desc_k st kd hacc]
    show scoreCandidate inp desc_k kd < bits
    omega
  · rw [acceptStep_rejected inp desc_k st kd hacc]
    exact hst

theorem narrow_fold_self (inp : MatchingInput) (fl : Nat → Bool) (desc_k : List Nat)
    (bl br : ℤ) (own : KeypointData) (bits : ℤ) :
    ∀ cs : List KeypointData, cs.Nodup → own ∈ cs →
      ¬(own.mx < (bl : ℚ)) → ¬(own.mx > (br : ℚ)) → fl own.index = false →
      scoreCandidate inp desc_k own = bits →
      (∀ kd ∈ cs, kd ≠ own → scoreCandidate inp desc_k kd ≤ bits - 1) →
      ∀ st : ScanState, st.best_score < bits →
      (cs.foldl (narrowStep inp fl desc_k bl br) st).found = true
      ∧ (cs.foldl (narrowStep inp fl desc_k bl br) st).best = some own
      ∧ (cs.foldl (narrowStep inp fl desc_k bl br) st).best_score = bits := by
  intro cs
  induction cs with
  | nil => intro _ habs; cases habs
  | cons c rest ih =>
    intro hnd hmem hbl hbr hfl hscore hothers st hst
    rw [List.foldl_cons]
    by_cases hc : c = own
    · subst hc
      have hstep : narrowStep inp fl desc_k bl br st c
          = { found := true, best_score := scoreCandidate inp desc_k c,
              best := some c, processed := updateFlag st.processed c.index,
              nProcessed := st.nProcessed + 1 } := by
        unfold narrowStep
        rw [if_neg (not_or.mpr ⟨hbl, hbr⟩), if_neg (by simp [hfl]),
          acceptStep_accepted inp desc_k st c (by rw [hscore]; exact hst)]
      rw [hstep]
      have hnotin : c ∉ rest := (List.nodup_cons.mp hnd).1
      have hpres := foldl_state_invariant (narrowStep inp fl desc_k bl br)
        (fun st' => st'.found = true ∧ st'.best = some c ∧ st'.best_score = bits) rest
        (fun st' kd hkdm hP => narrowStep_preserve_best inp fl desc_k bl br c bits st' kd
          (hothers kd (List.mem_cons_of_mem _ hkdm) (fun he => hnotin (he ▸ hkdm))) hP)
      exact hpres _ ⟨rfl, rfl, hscore⟩
    · have hmem' : own ∈ rest := by
        rcases List.mem_cons.mp hmem with h | h
        · exact absurd h.symm hc
        · exact h
      apply ih (List.Nodup.of_cons hnd) hmem' hbl hbr hfl hscore
        (fun kd hk hne => hothers kd (List.mem_cons_of_mem _ hk) hne)
      exact narrowStep_score_lt inp fl desc_k bl br st c bits hst
        (hothers c (List.mem_cons_self _ _) hc)

theorem exists_index (kps : List KeypointData) (n : Nat)
    (hlen : kps.length = n) (hidx : ∀ kd ∈ kps, kd.index < n)
    (hnodup : (kps.map fun kd => kd.index).Nodup) :
    ∀ k < n, ∃ kd ∈ kps, kd.index = k := by
  intro k hk
  have hsub : (kps.map fun kd => kd.index).toFinset ⊆ Finset.range n := by
    intro x hx
    rw [List.mem_toFinset, List.mem_map] at hx
    obtain ⟨kd, hkd, rfl⟩ := hx
    exact Finset.mem_range.mpr (hidx kd hkd)
  have hcard : (Finset.range n).card ≤ (kps.map fun kd => kd.index).toFinset.card := by
    rw [List.toFinset_card_of_nodup hnodup, List.length_map, hlen, Finset.card_range]
  have heq := Finset.eq_of_subset_of_card_le hsub hcard
  have hmem : k ∈ (kps.map fun kd => kd.index).toFinset := by
    rw [heq]; exact Finset.mem_range.mpr hk
  rw [List.mem_toFinset, List.mem_map] at hmem
  obtain ⟨kd, hkd, hkdi⟩ := hmem
  exact ⟨kd, hkd, hkdi⟩

theorem updateFlag_range (k : Nat) :
    updateFlag (fun j => decide (j < k)) k = fun j => decide (j < k + 1) := by
  funext j
  unfold updateFlag
  by_cases hj : j = k
  · subst hj; simp
  · rw [if_neg hj]
    exact decide_eq_decide.mpr (by omega)

theorem sub_one_lt_cppTrunc (q : ℚ) : q - 1 < (cppTrunc q : ℚ) := by
  unfold cppTrunc
  rcases lt_or_le q 0 with h | h
  · rw [if_pos h]
    push_cast
    have hf := Int.floor_le (-q)
    linarith
  · rw [if_neg (not_lt.mpr h)]
    have hf := Int.sub_one_lt_floor q
    linarith

theorem cppTrunc_mono {q r : ℚ} (h : q ≤ r) : cppTrunc q ≤ cppTrunc r := by
  unfold cppTrunc
  rcases lt_or_le q 0 with hq | hq
  · rcases lt_or_le r 0 with hr | hr
    · rw [if_pos hq, if_pos hr]
      have hf : ⌊-r⌋ ≤ ⌊-q⌋ := Int.floor_le_floor (by linarith)
      omega
    · rw [if_pos hq, if_neg (not_lt.mpr hr)]
      have hfr : (0 : ℤ) ≤ ⌊r⌋ := Int.le_floor.mpr (by exact_mod_cast hr)
      have hfq : (0 : ℤ) ≤ ⌊-q⌋ := Int.le_floor.mpr (by push_cast; linarith)
      omega
  · rw [if_neg (not_lt.mpr hq), if_neg (not_lt.mpr (le_trans hq h))]
    exact Int.floor_le_floor h

theorem windowSlice_row_mem_bounds {kps : List KeypointData} (hs : SortedByY kps)
    (H : Nat) (top bottom : ℤ)
    (htopN : top.toNat < H) (hbotN : bottom.toNat < H) :
    ∀ kd ∈ windowSlice kps (corner_row_LUT kps H) top bottom,
      ¬(kd.my < ((top.toNat : Nat) : ℚ)) ∧ kd.my < ((bottom.toNat : Nat) : ℚ) := by
  intro kd hkd
  unfold windowSlice at hkd
  rw [corner_row_LUT_getD hs H _ htopN, corner_row_LUT_getD hs H _ hbotN] at hkd
  constructor
  · rw [List.drop_take] at hkd
    exact sorted_drop_countP hs ((top.toNat : Nat) : ℚ) kd (List.take_subset _ _ hkd)
  · exact sorted_take_countP hs ((bottom.toNat : Nat) : ℚ) kd
      (List.Sublist.mem hkd (List.drop_sublist _ _))

theorem sq_window_bound {s dx dy : ℚ} (hs : 4 ≤ s)
    (hdx1 : dx < s + 1) (hdx2 : -dx < s + 1)
    (hdy1 : dy < s + 3/2) (hdy2 : -dy < s + 3/2) :
    dx ^ 2 + dy ^ 2 < (s * 2) ^ 2 := by
  have hx2 : dx ^ 2 < (s + 1) ^ 2 := by
    nlinarith [mul_pos (show (0 : ℚ) < s + 1 - dx by linarith)
      (show (0 : ℚ) < s + 1 + dx by linarith)]
  have hy2 : dy ^ 2 < (s + 3/2) ^ 2 := by
    nlinarith [mul_pos (show (0 : ℚ) < s + 3/2 - dy by linarith)
      (show (0 : ℚ) < s + 3/2 + dy by linarith)]
  nlinarith [sq_nonneg (s - 4)]

theorem narrowCandidates_norm_ok (inp : MatchingInput)
    (hs : SortedByY inp.keypointsBy_y) (i : Nat) (x0 y0 : ℚ)
    (hpredi : predictedOf inp i = (x0, y0))
    (hx0 : 0 ≤ x0) (hy0 : 0 ≤ y0) (hy1 : y0 < (inp.imageHeight : ℚ) - 1)
    (hs4 : 4 ≤ inp.smallSearchDistance) :
    ∀ kd ∈ narrowCandidates inp (corner_row_LUT inp.keypointsBy_y inp.imageHeight) i,
      ¬(kd.mx < ((boundLeftNearest inp i) : ℚ)) →
      ¬(kd.mx > ((boundRightNearest inp i) : ℚ)) →
      normSq (predictedOf inp i) kd < (inp.smallSearchDistance * 2) ^ 2 := by
  intro kd hkd hbl hbr
  unfold narrowCandidates at hkd
  have hp1 : (predictedOf inp i).1 = x0 := by rw [hpredi]
  have hp2 : (predictedOf inp i).2 = y0 := by rw [hpredi]
  have hH2 : 2 ≤ inp.imageHeight := by
    rcases Nat.lt_or_ge inp.imageHeight 2 with h | h
    · exfalso
      have hle : (inp.imageHeight : ℚ) ≤ 1 := by exact_mod_cast Nat.lt_succ_iff.mp h
      linarith
    · exact h
  have hblq : ((boundLeftNearest inp i) : ℚ) ≤ kd.mx := not_lt.mp hbl
  have hbrq : kd.mx ≤ ((boundRightNearest inp i) : ℚ) := not_lt.mp hbr
  have hbl_lt : x0 - inp.smallSearchDistance - 1 < ((boundLeftNearest inp i) : ℚ) := by
    unfold boundLeftNearest
    have h := sub_one_lt_cppTrunc ((predictedOf inp i).1 - inp.smallSearchDistance)
    linarith [hp1]
  have hbr_le : ((boundRightNearest inp i) : ℚ) ≤ x0 + inp.smallSearchDistance := by
    unfold boundRightNearest
    have h := cppTrunc_le_self
      (show (0 : ℚ) ≤ (predictedOf inp i).1 + inp.smallSearchDistance by linarith [hp1])
    linarith [hp1]
  have htop_nonneg : 0 ≤ nearestTop inp i := by
    unfold nearestTop idxNearestLow clamp heightBound
    omega
  have hbot_nonneg : 0 ≤ nearestBottom inp i := by
    unfold nearestBottom idxNearestHigh clamp heightBound
    omega
  have htop_le : nearestTop inp i ≤ (inp.imageHeight : ℤ) - 1 := by
    unfold nearestTop idxNearestLow clamp heightBound
    omega
  have hbot_le : nearestBottom inp i ≤ (inp.imageHeight : ℤ) - 1 := by
    unfold nearestBottom idxNearestHigh clamp heightBound
    omega
  have htopNat_lt : (nearestTop inp i).toNat < inp.imageHeight := by omega
  have hbotNat_lt : (nearestBottom inp i).toNat < inp.imageHeight := by omega
  have hrowb := windowSlice_row_mem_bounds hs inp.imageHeight
    (nearestTop inp i) (nearestBottom inp i) htopNat_lt hbotNat_lt kd hkd
  have hkey_top : (((nearestTop inp i).toNat : Nat) : ℚ)
      = ((nearestTop inp i : ℤ) : ℚ) := by
    exact_mod_cast congrArg (Int.cast : ℤ → ℚ) (Int.toNat_of_nonneg htop_nonneg)
  have hkey_bot : (((nearestBottom inp i).toNat : Nat) : ℚ)
      = ((nearestBottom inp i : ℤ) : ℚ) := by
    exact_mod_cast congrArg (Int.cast : ℤ → ℚ) (Int.toNat_of_nonneg hbot_nonneg)
  have ht1 : y0 - inp.smallSearchDistance - 1/2
      < (cppTrunc ((predictedOf inp i).2 + 1/2 - inp.smallSearchDistance) : ℚ) := by
    have h := sub_one_lt_cppTrunc ((predictedOf inp i).2 + 1/2 - inp.smallSearchDistance)
    linarith [hp2]
  have hminZ : min (cppTrunc ((predictedOf inp i).2 + 1/2 - inp.smallSearchDistance))
      ((inp.imageHeight : ℤ) - 1) ≤ nearestTop inp i := by
    unfold nearestTop idxNearestLow clamp heightBound
    omega
  have htopQ : y0 - inp.smallSearchDistance - 1/2 < ((nearestTop inp i : ℤ) : ℚ) := by
    have h2 : ((min (cppTrunc ((predictedOf inp i).2 + 1/2 - inp.smallSearchDistance))
        ((inp.imageHeight : ℤ) - 1) : ℤ) : ℚ) ≤ ((nearestTop inp i : ℤ) : ℚ) := by
      exact_mod_cast hminZ
    have h3 : ((min (cppTrunc ((predictedOf inp i).2 + 1/2 - inp.smallSearchDistance))
        ((inp.imageHeight : ℤ) - 1) : ℤ) : ℚ)
        = min ((cppTrunc ((predictedOf inp i).2 + 1/2 - inp.smallSearchDistance) : ℤ) : ℚ)
            ((inp.imageHeight : ℚ) - 1) := by
      push_cast
      rfl
    rw [h3] at h2
    have h4 : y0 - inp.smallSearchDistance - 1/2
        < min ((cppTrunc ((predictedOf inp i).2 + 1/2 - inp.smallSearchDistance) : ℤ) : ℚ)
            ((inp.imageHeight : ℚ) - 1) :=
      lt_min ht1 (by linarith)
    linarith
  have hmy_low : y0 - inp.smallSearchDistance - 1/2 < kd.my := by
    have h := not_lt.mp hrowb.1
    rw [hkey_top] at h
    linarith
  have ht2 : (cppTrunc ((predictedOf inp i).2 + 1/2 + inp.smallSearchDistance) : ℚ)
      ≤ y0 + 1/2 + inp.smallSearchDistance := by
    have h := cppTrunc_le_self
      (show (0 : ℚ) ≤ (predictedOf inp i).2 + 1/2 + inp.smallSearchDistance by linarith [hp2])
    linarith [hp2]
  have ht2nn : 0 ≤ cppTrunc ((predictedOf inp i).2 + 1/2 + inp.smallSearchDistance) :=
    cppTrunc_nonneg
      (show (0 : ℚ) ≤ (predictedOf inp i).2 + 1/2 + inp.smallSearchDistance by linarith [hp2])
  have hmaxZ : nearestBottom inp i
      ≤ max (cppTrunc ((predictedOf inp i).2 + 1/2 + inp.smallSearchDistance)) 0 + 1 := by
    unfold nearestBottom idxNearestHigh clamp heightBound
    omega
  have hbotQ : ((nearestBottom inp i : ℤ) : ℚ)
      ≤ y0 + inp.smallSearchDistance + 3/2 := by
    rw [max_eq_left ht2nn] at hmaxZ
    have h2 : ((nearestBottom inp i : ℤ) : ℚ)
        ≤ ((cppTrunc ((predictedOf inp i).2 + 1/2 + inp.smallSearchDistance) + 1 : ℤ) : ℚ) := by
      exact_mod_cast hmaxZ
    push_cast at h2
    linarith
  have hmy_high : kd.my < y0 + inp.smallSearchDistance + 3/2 := by
    have h := hrowb.2
    rw [hkey_bot] at h
    linarith
  have hgoal : (x0 - kd.mx) ^ 2 + (y0 - kd.my) ^ 2
      < (inp.smallSearchDistance * 2) ^ 2 :=
    sq_window_bound hs4 (by linarith) (by linarith) (by linarith) (by linarith)
  unfold normSq
  rw [hp1, hp2]
  exact hgoal

theorem windowChecksPass_holds (inp : MatchingInput) (i : Nat)
    (hH : 1 ≤ inp.imageHeight) (hsmall : 0 ≤ inp.smallSearchDistance)
    (hlarge : 0 ≤ inp.largeSearchDistance) :
    windowChecksPass inp i = true := by
  have h1 : cppTrunc ((predictedOf inp i).2 + 1/2 - inp.smallSearchDistance)
      ≤ cppTrunc ((predictedOf inp i).2 + 1/2 + inp.smallSearchDistance) :=
    cppTrunc_mono (by linarith)
  have h2 : cppTrunc ((predictedOf inp i).2 + 1/2 - inp.largeSearchDistance)
      ≤ cppTrunc ((predictedOf inp i).2 + 1/2 + inp.largeSearchDistance) :=
    cppTrunc_mono (by linarith)
  unfold windowChecksPass idxNearestLow idxNearestHigh idxNearLow idxNearHigh
    clamp heightBound
  simp only [Bool.and_eq_true, decide_eq_true_eq]
  omega

theorem acceptStepChecked_sound (inp : MatchingInput) (dk : List Nat)
    (pred : ℚ × ℚ) (s : ℚ) (st : ScanState) (kd : KeypointData) (st' : ScanState)
    (h : acceptStepChecked inp dk pred s st kd = some st') :
    st' = acceptStep inp dk st kd := by
  simp only [acceptStepChecked] at h
  by_cases hacc : scoreCandidate inp dk kd > st.best_score
  · rw [if_pos hacc] at h
    by_cases hnorm : normSq pred kd < (s * 2) ^ 2
    · rw [if_pos hnorm] at h
      rw [← Option.some.inj h]
      exact (acceptStep_accepted inp dk st kd hacc).symm
    · rw [if_neg hnorm] at h
      exact Option.noConfusion h
  · rw [if_neg hacc] at h
    rw [← Option.some.inj h]
    exact (acceptStep_rejected inp dk st kd hacc).symm

theorem narrowStepChecked_sound (inp : MatchingInput) (fl : Nat → Bool)
    (dk : List Nat) (bl br : ℤ) (pred : ℚ × ℚ) (s : ℚ)
    (st : ScanState) (kd : KeypointData) (st' : ScanState)
    (h : narrowStepChecked inp fl dk bl br pred s st kd = some st') :
    st' = narrowStep inp fl dk bl br st kd := by
  unfold narrowStepChecked at h
  unfold narrowStep
  by_cases h1 : kd.mx < (bl : ℚ) ∨ kd.mx > (br : ℚ)
  · rw [if_pos h1] at h
    rw [if_pos h1]
    exact (Option.some.inj h).symm
  · rw [if_neg h1] at h
    rw [if_neg h1]
    by_cases h2 : fl kd.index = true
    · rw [if_pos h2] at h
      rw [if_pos h2]
      exact (Option.some.inj h).symm
    · rw [if_neg h2] at h
      rw [if_neg h2]
      exact acceptStepChecked_sound inp dk pred s st kd st' h

theorem wideStepChecked_sound (inp : MatchingInput) (fl : Nat → Bool)
    (dk : List Nat) (bl br : ℤ) (pred : ℚ × ℚ) (s : ℚ)
    (st : ScanState) (kd : KeypointData) (st' : ScanState)
    (h : wideStepChecked inp fl dk bl br pred s st kd = some st') :
    st' = wideStep inp fl dk bl br st kd := by
  unfold wideStepChecked at h
  unfold wideStep
  by_cases h1 : st.processed kd.index || fl kd.index
  · rw [if_pos h1] at h
    rw [if_pos h1]
    exact (Option.some.inj h).symm
  · rw [if_neg h1] at h
    rw [if_neg h1]
    by_cases h2 : kd.mx < (bl : ℚ) ∨ kd.mx > (br : ℚ)
    · rw [if_pos h2] at h
      rw [if_pos h2]
      exact (Option.some.inj h).symm
    · rw [if_neg h2] at h
      rw [if_neg h2]
      exact acceptStepChecked_sound inp dk pred s st kd st' h

theorem scanLoopChecked_eq_foldl (stepC : ScanState → KeypointData → Option ScanState)
    (step : ScanState → KeypointData → ScanState) :
    ∀ cs : List KeypointData, (∀ st' kd, kd ∈ cs → stepC st' kd = some (step st' kd)) →
    ∀ st : ScanState, scanLoopChecked stepC cs st = some (cs.foldl step st) := by
  intro cs
  induction cs with
  | nil => intro _ st; rfl
  | cons a t ih =>
    intro hstep st
    rw [scanLoopChecked, hstep st a (List.mem_cons_self a t), List.foldl_cons]
    exact ih (fun st' kd hk => hstep st' kd (List.mem_cons_of_mem a hk)) (step st a)

theorem scanLoopChecked_sound (stepC : ScanState → KeypointData → Option ScanState)
    (step : ScanState → KeypointData → ScanState)
    (hstep : ∀ st kd st', stepC st kd = some st' → st' = step st kd) :
    ∀ (cs : List KeypointData) (st stf : ScanState),
      scanLoopChecked stepC cs st = some stf → stf = cs.foldl step st := by
  intro cs
  induction cs with
  | nil =>
    intro st stf h
    rw [scanLoopChecked] at h
    rw [List.foldl_nil]
    exact (Option.some.inj h).symm
  | cons a t ih =>
    intro st stf h
    rw [scanLoopChecked] at h
    rcases ha : stepC st a with _ | st1
    · rw [ha] at h
      exact Option.noConfusion h
    · rw [ha] at h
      rw [List.foldl_cons, ← hstep st a st1 ha]
      exact ih st1 stf h

theorem narrowStepChecked_eq (inp : MatchingInput) (fl : Nat → Bool)
    (dk : List Nat) (bl br : ℤ) (pred : ℚ × ℚ) (s : ℚ)
    (st : ScanState) (kd : KeypointData)
    (hn : ¬(kd.mx < (bl : ℚ)) → ¬(kd.mx > (br : ℚ)) → fl kd.index = false →
      normSq pred kd < (s * 2) ^ 2) :
    narrowStepChecked inp fl dk bl br pred s st kd
      = some (narrowStep inp fl dk bl br st kd) := by
  unfold narrowStepChecked narrowStep
  by_cases h1 : kd.mx < (bl : ℚ) ∨ kd.mx > (br : ℚ)
  · rw [if_pos h1, if_pos h1]
  · rw [if_neg h1, if_neg h1]
    by_cases h2 : fl kd.index = true
    · rw [if_pos h2, if_pos h2]
    · rw [if_neg h2, if_neg h2]
      have hfl : fl kd.index = false := by simpa using h2
      have hnormok := hn (not_or.mp h1).1 (not_or.mp h1).2 hfl
      simp only [acceptStepChecked, acceptStep]
      by_cases hacc : scoreCandidate inp dk kd > st.best_score
      · simp only [if_pos hacc, if_pos hnormok]
      · simp only [if_neg hacc]

theorem narrowScanChecked_eq (inp : MatchingInput) (lut : List Nat)
    (fl : Nat → Bool) (i : Nat)
    (hn : ∀ kd ∈ narrowCandidates inp lut i,
      ¬(kd.mx < ((boundLeftNearest inp i) : ℚ)) →
      ¬(kd.mx > ((boundRightNearest inp i) : ℚ)) → fl kd.index = false →
      normSq (predictedOf inp i) kd < (inp.smallSearchDistance * 2) ^ 2) :
    narrowScanChecked inp lut fl i = some (narrowScan inp lut fl i) := by
  unfold narrowScanChecked narrowScan
  exact scanLoopChecked_eq_foldl _ _ (narrowCandidates inp lut i)
    (fun st' kd hk => narrowStepChecked_eq inp fl (inp.descriptorsK.getD i [])
      (boundLeftNearest inp i) (boundRightNearest inp i)
      (predictedOf inp i) inp.smallSearchDistance st' kd (hn kd hk))
    (initScanState inp)

theorem finalScanChecked_of_found (inp : MatchingInput) (lut : List Nat)
    (fl : Nat → Bool) (i : Nat)
    (hn : narrowScanChecked inp lut fl i = some (narrowScan inp lut fl i))
    (hf : (narrowScan inp lut fl i).found = true) :
    finalScanChecked inp lut fl i = some (finalScan inp lut fl i) := by
  unfold finalScanChecked finalScan
  rw [hn]
  simp [hf]

theorem finalScanChecked_sound (inp : MatchingInput) (lut : List Nat)
    (fl : Nat → Bool) (i : Nat) (stf : ScanState)
    (h : finalScanChecked inp lut fl i = some stf) :
    stf = finalScan inp lut fl i := by
  unfold finalScanChecked at h
  rcases hn : narrowScanChecked inp lut fl i with _ | st
  · rw [hn] at h
    exact Option.noConfusion h
  · rw [hn] at h
    have hst : st = narrowScan inp lut fl i :=
      scanLoopChecked_sound _ _ (fun st' kd st'' hh =>
        narrowStepChecked_sound inp fl _ _ _ _ _ st' kd st'' hh) _ _ _ hn
    subst hst
    have h' : (if (narrowScan inp lut fl i).found = true
          then some (narrowScan inp lut fl i)
          else scanLoopChecked
            (wideStepChecked inp fl (inp.descriptorsK.getD i [])
              (boundLeftNear inp i) (boundRightNear inp i)
              (predictedOf inp i) inp.largeSearchDistance)
            (nearCandidates inp lut i) (narrowScan inp lut fl i)) = some stf := h
    show stf = if (narrowScan inp lut fl i).found = true then narrowScan inp lut fl i
      else (nearCandidates inp lut i).foldl
        (wideStep inp fl (inp.descriptorsK.getD i [])
          (boundLeftNear inp i) (boundRightNear inp i)) (narrowScan inp lut fl i)
    by_cases hf : (narrowScan inp lut fl i).found = true
    · rw [if_pos hf] at h' ⊢
      exact (Option.some.inj h').symm
    · rw [if_neg hf] at h' ⊢
      exact scanLoopChecked_sound _ _ (fun st' kd st'' hh =>
        wideStepChecked_sound inp fl _ _ _ _ _ st' kd st'' hh) _ _ _ h'

theorem processSourceChecked_eq (inp : MatchingInput) (lut : List Nat)
    (fl : Nat → Bool) (i : Nat)
    (hw : windowChecksPass inp i = true)
    (hfs : finalScanChecked inp lut fl i = some (finalScan inp lut fl i)) :
    processSourceChecked inp lut fl i = some (processSource inp lut fl i) := by
  unfold processSourceChecked processSource
  rw [if_pos hw, hfs]
  by_cases hf : (finalScan inp lut fl i).found = true
  · cases hb : (finalScan inp lut fl i).best with
    | none => simp [hf, hb]
    | some b => simp [hf, hb]
  · simp [hf]

theorem processSourceChecked_sound (inp : MatchingInput) (lut : List Nat)
    (fl : Nat → Bool) (i : Nat) (r : (Nat → Bool) × Option MatchRecord)
    (h : processSourceChecked inp lut fl i = some r) :
    r = processSource inp lut fl i := by
  unfold processSourceChecked at h
  by_cases hw : windowChecksPass inp i = true
  · rw [if_pos hw] at h
    rcases hfs : finalScanChecked inp lut fl i with _ | st
    · rw [hfs] at h
      exact Option.noConfusion h
    · rw [hfs] at h
      have hst := finalScanChecked_sound inp lut fl i st hfs
      subst hst
      have h' : (if (finalScan inp lut fl i).found = true then
            match (finalScan inp lut fl i).best with
            | some b => some (updateFlag fl b.index, some (⟨b.index, i, 0⟩ : MatchRecord))
            | none => some (fl, none)
          else some (fl, none)) = some r := h
      show r = if (finalScan inp lut fl i).found = true then
          match (finalScan inp lut fl i).best with
          | some b => (updateFlag fl b.index, some (⟨b.index, i, 0⟩ : MatchRecord))
          | none => (fl, none)
        else (fl, none)
      by_cases hf : (finalScan inp lut fl i).found = true
      · rw [if_pos hf] at h' ⊢
        cases hb : (finalScan inp lut fl i).best with
        | none =>
          rw [hb] at h'
          exact (Option.some.inj h').symm
        | some b =>
          rw [hb] at h'
          exact (Option.some.inj h').symm
      · rw [if_neg hf] at h' ⊢
        exact (Option.some.inj h').symm
  · rw [if_neg hw] at h
    exact Option.noConfusion h

theorem matchLoopChecked_sound (inp : MatchingInput) (lut : List Nat) :
    ∀ (idxs : List Nat) (fl : Nat → Bool) (acc out : List MatchRecord),
      matchLoopChecked inp lut idxs fl acc = some out →
      out = matchLoop inp lut idxs fl acc := by
  intro idxs
  induction idxs with
  | nil =>
    intro fl acc out h
    have h' : some acc = some out := h
    exact (Option.some.inj h').symm
  | cons i rest ih =>
    intro fl acc out h
    have h2 : (match processSourceChecked inp lut fl i with
        | none => none
        | some r => matchLoopChecked inp lut rest r.1 (acc ++ r.2.toList)) = some out := h
    rcases hp : processSourceChecked inp lut fl i with _ | r
    · rw [hp] at h2
      exact Option.noConfusion h2
    · rw [hp] at h2
      have h' : matchLoopChecked inp lut rest r.1 (acc ++ r.2.toList) = some out := h2
      have hr := processSourceChecked_sound inp lut fl i r hp
      rw [hr] at h'
      exact ih _ _ out h'

theorem matchFeaturesChecked_sound (inp : MatchingInput) (out : List MatchRecord)
    (h : matchFeaturesChecked inp = some out) : out = matchFeatures inp := by
  unfold matchFeaturesChecked at h
  by_cases hb : inp.descriptorSizeBytes * 8 ≤ 512
  · rw [if_pos hb] at h
    unfold matchFeatures
    exact matchLoopChecked_sound inp _ _ _ _ _ h
  · rw [if_neg hb] at h
    exact Option.noConfusion h

theorem narrowScan_identity (inp : MatchingInput)
    (hs : SortedByY inp.keypointsBy_y)
    (hlen : inp.keypointsBy_y.length = inp.numPointsK)
    (hidx : ∀ kd ∈ inp.keypointsBy_y, kd.index < inp.numPointsK)
    (hnodup : (inp.keypointsBy_y.map fun kd => kd.index).Nodup)
    (hpred : ∀ kd ∈ inp.keypointsBy_y, predictedOf inp kd.index = (kd.mx, kd.my))
    (hdesc : inp.descriptorsKp1 = inp.descriptorsK)
    (hdlen : ∀ kd ∈ inp.keypointsBy_y,
      (inp.descriptorsK.getD kd.index []).length = inp.descriptorSizeBytes)
    (hdd : ∀ a ∈ inp.keypointsBy_y, ∀ b ∈ inp.keypointsBy_y, a.index ≠ b.index →
      inp.descriptorsK.getD a.index [] ≠ inp.descriptorsK.getD b.index [])
    (hrow : ∀ kd ∈ inp.keypointsBy_y, 0 ≤ kd.my ∧ kd.my < (inp.imageHeight : ℚ) - 1)
    (hcol : ∀ kd ∈ inp.keypointsBy_y, 0 ≤ kd.mx)
    (hsmall : 1 ≤ inp.smallSearchDistance)
    (hfrac : inp.thresholdBitsFrac < 1)
    (hL : 1 ≤ inp.descriptorSizeBytes)
    (k : Nat) (hk : k < inp.numPointsK) :
    ∃ own : KeypointData, own ∈ inp.keypointsBy_y ∧ own.index = k
      ∧ (narrowScan inp (corner_row_LUT inp.keypointsBy_y inp.imageHeight)
          (fun j => decide (j < k)) k).found = true
      ∧ (narrowScan inp (corner_row_LUT inp.keypointsBy_y inp.imageHeight)
          (fun j => decide (j < k)) k).best = some own := by
  obtain ⟨own, hown_mem, hown_idx⟩ :=
    exists_index inp.keypointsBy_y inp.numPointsK hlen hidx hnodup k hk
  have hbits : scoreCandidate inp (inp.descriptorsK.getD k []) own
      = 8 * (inp.descriptorSizeBytes : ℤ) := by
    unfold scoreCandidate
    rw [hdesc, hown_idx, hammingDistance512_self]
    simp
  have hothers : ∀ kd ∈ narrowCandidates inp
        (corner_row_LUT inp.keypointsBy_y inp.imageHeight) k,
      kd ≠ own → scoreCandidate inp (inp.descriptorsK.getD k []) kd
        ≤ 8 * (inp.descriptorSizeBytes : ℤ) - 1 := by
    intro kd hkd hne
    have hkd_mem : kd ∈ inp.keypointsBy_y :=
      List.Sublist.mem hkd (windowSlice_sublist _ _ _ _)
    have hne_idx : kd.index ≠ k := by
      intro he
      exact hne (List.inj_on_of_nodup_map hnodup hkd_mem hown_mem (he.trans hown_idx.symm))
    have hlen1 : (inp.descriptorsK.getD k []).length = inp.descriptorSizeBytes := by
      have := hdlen own hown_mem
      rwa [hown_idx] at this
    have hdne : inp.descriptorsK.getD k [] ≠ inp.descriptorsK.getD kd.index [] := by
      have := hdd own hown_mem kd hkd_mem (by rw [hown_idx]; exact fun he => hne_idx he.symm)
      rwa [hown_idx] at this
    have hpos := hammingDistance512_pos_of_ne hlen1 (hdlen kd hkd_mem) hdne
    unfold scoreCandidate
    rw [hdesc]
    have hcast : (1 : ℤ) ≤ (hammingDistance512 inp.descriptorSizeBytes
        (inp.descriptorsK.getD k []) (inp.descriptorsK.getD kd.index []) : ℤ) := by
      exact_mod_cast hpos
    omega
  have hrow_own := hrow own hown_mem
  have hmem_cand : own ∈ narrowCandidates inp
      (corner_row_LUT inp.keypointsBy_y inp.imageHeight) k := by
    have := self_mem_narrowCandidates inp hs own hown_mem (hpred own hown_mem)
      hrow_own.1 hrow_own.2 hsmall
    rwa [hown_idx] at this
  have hcol_own := hcol own hown_mem
  have hp1 : (predictedOf inp k).1 = own.mx := by
    rw [← hown_idx, hpred own hown_mem]
  have hbl : ¬(own.mx < ((boundLeftNearest inp k) : ℚ)) := by
    unfold boundLeftNearest
    rw [not_lt, hp1]
    exact cppTrunc_col_left hcol_own (by linarith)
  have hbr : ¬(own.mx > ((boundRightNearest inp k) : ℚ)) := by
    unfold boundRightNearest
    rw [not_lt, hp1]
    exact cppTrunc_col_right hcol_own hsmall
  have hnd_cand : (narrowCandidates inp
      (corner_row_LUT inp.keypointsBy_y inp.imageHeight) k).Nodup :=
    List.Nodup.sublist (windowSlice_sublist _ _ _ _) (List.Nodup.of_map _ hnodup)
  have hfl_own : (fun j => decide (j < k)) own.index = false := by
    rw [hown_idx]; simp
  have hscan := narrow_fold_self inp (fun j => decide (j < k))
    (inp.descriptorsK.getD k []) (boundLeftNearest inp k) (boundRightNearest inp k)
    own (8 * (inp.descriptorSizeBytes : ℤ))
    (narrowCandidates inp (corner_row_LUT inp.keypointsBy_y inp.imageHeight) k)
    hnd_cand hmem_cand hbl hbr hfl_own hbits hothers
    (initScanState inp) (initialBestScore_lt_bits inp hfrac hL)
  exact ⟨own, hown_mem, hown_idx, hscan.1, hscan.2.1⟩

theorem processSource_identity_step (inp : MatchingInput)
    (hs : SortedByY inp.keypointsBy_y)
    (hlen : inp.keypointsBy_y.length = inp.numPointsK)
    (hidx : ∀ kd ∈ inp.keypointsBy_y, kd.index < inp.numPointsK)
    (hnodup : (inp.keypointsBy_y.map fun kd => kd.index).Nodup)
    (hpred : ∀ kd ∈ inp.keypointsBy_y, predictedOf inp kd.index = (kd.mx, kd.my))
    (hdesc : inp.descriptorsKp1 = inp.descriptorsK)
    (hdlen : ∀ kd ∈ inp.keypointsBy_y,
      (inp.descriptorsK.getD kd.index []).length = inp.descriptorSizeBytes)
    (hdd : ∀ a ∈ inp.keypointsBy_y, ∀ b ∈ inp.keypointsBy_y, a.index ≠ b.index →
      inp.descriptorsK.getD a.index [] ≠ inp.descriptorsK.getD b.index [])
    (hrow : ∀ kd ∈ inp.keypointsBy_y, 0 ≤ kd.my ∧ kd.my < (inp.imageHeight : ℚ) - 1)
    (hcol : ∀ kd ∈ inp.keypointsBy_y, 0 ≤ kd.mx)
    (hsmall : 1 ≤ inp.smallSearchDistance)
    (hfrac : inp.thresholdBitsFrac < 1)
    (hL : 1 ≤ inp.descriptorSizeBytes)
    (k : Nat) (hk : k < inp.numPointsK) :
    processSource inp (corner_row_LUT inp.keypointsBy_y inp.imageHeight)
        (fun j => decide (j < k)) k
      = (fun j => decide (j < k + 1), some ⟨k, k, 0⟩) := by
  obtain ⟨own, hown_mem, hown_idx, hfound, hbest⟩ :=
    narrowScan_identity inp hs hlen hidx hnodup hpred hdesc hdlen hdd
      hrow hcol hsmall hfrac hL k hk
  have hfinal_eq : finalScan inp (corner_row_LUT inp.keypointsBy_y inp.imageHeight)
        (fun j => decide (j < k)) k
      = narrowScan inp (corner_row_LUT inp.keypointsBy_y inp.imageHeight)
        (fun j => decide (j < k)) k := by
    unfold finalScan
    simp [hfound]
  simp only [processSource]
  rw [hfinal_eq, hbest]
  simp only [hfound, if_true]
  rw [hown_idx, updateFlag_range]

theorem matchLoop_identity (inp : MatchingInput)
    (hs : SortedByY inp.keypointsBy_y)
    (hlen : inp.keypointsBy_y.length = inp.numPointsK)
    (hidx : ∀ kd ∈ inp.keypointsBy_y, kd.index < inp.numPointsK)
    (hnodup : (inp.keypointsBy_y.map fun kd => kd.index).Nodup)
    (hpred : ∀ kd ∈ inp.keypointsBy_y, predictedOf inp kd.index = (kd.mx, kd.my))
    (hdesc : inp.descriptorsKp1 = inp.descriptorsK)
    (hdlen : ∀ kd ∈ inp.keypointsBy_y,
      (inp.descriptorsK.getD kd.index []).length = inp.descriptorSizeBytes)
    (hdd : ∀ a ∈ inp.keypointsBy_y, ∀ b ∈ inp.keypointsBy_y, a.index ≠ b.index →
      inp.descriptorsK.getD a.index [] ≠ inp.descriptorsK.getD b.index [])
    (hrow : ∀ kd ∈ inp.keypointsBy_y, 0 ≤ kd.my ∧ kd.my < (inp.imageHeight : ℚ) - 1)
    (hcol : ∀ kd ∈ inp.keypointsBy_y, 0 ≤ kd.mx)
    (hsmall : 1 ≤ inp.smallSearchDistance)
    (hfrac : inp.thresholdBitsFrac < 1)
    (hL : 1 ≤ inp.descriptorSizeBytes) :
    ∀ (m k : Nat), k + m ≤ inp.numPointsK → ∀ acc : List MatchRecord,
      matchLoop inp (corner_row_LUT inp.keypointsBy_y inp.imageHeight)
          (List.range' k m) (fun j => decide (j < k)) acc
        = acc ++ (List.range' k m).map (fun i => ⟨i, i, 0⟩) := by
  intro m
  induction m with
  | zero =>
    intro k _ acc
    rw [show List.range' k 0 = [] from rfl, matchLoop]
    simp
  | succ m ih =>
    intro k hk acc
    rw [List.range'_succ, matchLoop,
      processSource_identity_step inp hs hlen hidx hnodup hpred hdesc hdlen hdd
        hrow hcol hsmall hfrac hL k (by omega)]
    simp only [Option.toList_some]
    have hih := ih (k + 1) (by omega) (acc ++ [⟨k, k, 0⟩])
    have hgoal : (acc ++ [(⟨k, k, 0⟩ : MatchRecord)])
          ++ (List.range' (k + 1) m).map (fun i => (⟨i, i, 0⟩ : MatchRecord))
        = acc ++ (k :: List.range' (k + 1) m).map (fun i => (⟨i, i, 0⟩ : MatchRecord)) := by
      simp
    exact hih.trans hgoal

theorem processSourceChecked_identity_step (inp : MatchingInput)
    (hs : SortedByY inp.keypointsBy_y)
    (hlen : inp.keypointsBy_y.length = inp.numPointsK)
    (hidx : ∀ kd ∈ inp.keypointsBy_y, kd.index < inp.numPointsK)
    (hnodup : (inp.keypointsBy_y.map fun kd => kd.index).Nodup)
    (hpred : ∀ kd ∈ inp.keypointsBy_y, predictedOf inp kd.index = (kd.mx, kd.my))
    (hdesc : inp.descriptorsKp1 = inp.descriptorsK)
    (hdlen : ∀ kd ∈ inp.keypointsBy_y,
      (inp.descriptorsK.getD kd.index []).length = inp.descriptorSizeBytes)
    (hdd : ∀ a ∈ inp.keypointsBy_y, ∀ b ∈ inp.keypointsBy_y, a.index ≠ b.index →
      inp.descriptorsK.getD a.index [] ≠ inp.descriptorsK.getD b.index [])
    (hrow : ∀ kd ∈ inp.keypointsBy_y, 0 ≤ kd.my ∧ kd.my < (inp.imageHeight : ℚ) - 1)
    (hcol : ∀ kd ∈ inp.keypointsBy_y, 0 ≤ kd.mx)
    (hsmall : 4 ≤ inp.smallSearchDistance)
    (hlarge : 0 ≤ inp.largeSearchDistance)
    (hfrac : inp.thresholdBitsFrac < 1)
    (hL : 1 ≤ inp.descriptorSizeBytes)
    (k : Nat) (hk : k < inp.numPointsK) :
    processSourceChecked inp (corner_row_LUT inp.keypointsBy_y inp.imageHeight)
        (fun j => decide (j < k)) k
      = some (fun j => decide (j < k + 1), some ⟨k, k, 0⟩) := by
  have hsmall1 : 1 ≤ inp.smallSearchDistance := by linarith
  obtain ⟨own, hown_mem, hown_idx, hfound, hbest⟩ :=
    narrowScan_identity inp hs hlen hidx hnodup hpred hdesc hdlen hdd
      hrow hcol hsmall1 hfrac hL k hk
  have hrow_own := hrow own hown_mem
  have hH2 : 2 ≤ inp.imageHeight := by
    rcases Nat.lt_or_ge inp.imageHeight 2 with h | h
    · exfalso
      have hle : (inp.imageHeight : ℚ) ≤ 1 := by exact_mod_cast Nat.lt_succ_iff.mp h
      linarith [hrow_own.1, hrow_own.2]
    · exact h
  have hp : predictedOf inp k = (own.mx, own.my) := by
    rw [← hown_idx]
    exact hpred own hown_mem
  have hnorm := narrowCandidates_norm_ok inp hs k own.mx own.my hp
    (hcol own hown_mem) hrow_own.1 hrow_own.2 hsmall
  have hnsc : narrowScanChecked inp (corner_row_LUT inp.keypointsBy_y inp.imageHeight)
        (fun j => decide (j < k)) k
      = some (narrowScan inp (corner_row_LUT inp.keypointsBy_y inp.imageHeight)
        (fun j => decide (j < k)) k) :=
    narrowScanChecked_eq inp _ _ k (fun kd hkd h1 h2 _ => hnorm kd hkd h1 h2)
  have hfsc := finalScanChecked_of_found inp _ _ k hnsc hfound
  have hw : windowChecksPass inp k = true :=
    windowChecksPass_holds inp k (by omega) (by linarith) hlarge
  rw [processSourceChecked_eq inp _ _ k hw hfsc,
    processSource_identity_step inp hs hlen hidx hnodup hpred hdesc hdlen hdd
      hrow hcol hsmall1 hfrac hL k hk]

theorem matchLoopChecked_identity (inp : MatchingInput)
    (hs : SortedByY inp.keypointsBy_y)
    (hlen : inp.keypointsBy_y.length = inp.numPointsK)
    (hidx : ∀ kd ∈ inp.keypointsBy_y, kd.index < inp.numPointsK)
    (hnodup : (inp.keypointsBy_y.map fun kd => kd.index).Nodup)
    (hpred : ∀ kd ∈ inp.keypointsBy_y, predictedOf inp kd.index = (kd.mx, kd.my))
    (hdesc : inp.descriptorsKp1 = inp.descriptorsK)
    (hdlen : ∀ kd ∈ inp.keypointsBy_y,
      (inp.descriptorsK.getD kd.index []).length = inp.descriptorSizeBytes)
    (hdd : ∀ a ∈ inp.keypointsBy_y, ∀ b ∈ inp.keypointsBy_y, a.index ≠ b.index →
      inp.descriptorsK.getD a.index [] ≠ inp.descriptorsK.getD b.index [])
    (hrow : ∀ kd ∈ inp.keypointsBy_y, 0 ≤ kd.my ∧ kd.my < (inp.imageHeight : ℚ) - 1)
    (hcol : ∀ kd ∈ inp.keypointsBy_y, 0 ≤ kd.mx)
    (hsmall : 4 ≤ inp.smallSearchDistance)
    (hlarge : 0 ≤ inp.largeSearchDistance)
    (hfrac : inp.thresholdBitsFrac < 1)
    (hL : 1 ≤ inp.descriptorSizeBytes) :
    ∀ (m k : Nat), k + m ≤ inp.numPointsK → ∀ acc : List MatchRecord,
      matchLoopChecked inp (corner_row_LUT inp.keypointsBy_y inp.imageHeight)
          (List.range' k m) (fun j => decide (j < k)) acc
        = some (acc ++ (List.range' k m).map (fun i => ⟨i, i, 0⟩)) := by
  intro m
  induction m with
  | zero =>
    intro k _ acc
    rw [show List.range' k 0 = [] from rfl]
    show some acc = _
    simp
  | succ m ih =>
    intro k hk acc
    rw [List.range'_succ]
    have hps := processSourceChecked_identity_step inp hs hlen hidx hnodup hpred hdesc
      hdlen hdd hrow hcol hsmall hlarge hfrac hL k (by omega)
    have hstep : matchLoopChecked inp (corner_row_LUT inp.keypointsBy_y inp.imageHeight)
          (k :: List.range' (k + 1) m) (fun j => decide (j < k)) acc
        = matchLoopChecked inp (corner_row_LUT inp.keypointsBy_y inp.imageHeight)
          (List.range' (k + 1) m) (fun j => decide (j < k + 1))
          (acc ++ [(⟨k, k, 0⟩ : MatchRecord)]) := by
      show (match processSourceChecked inp
            (corner_row_LUT inp.keypointsBy_y inp.imageHeight)
            (fun j => decide (j < k)) k with
        | none => none
        | some r => matchLoopChecked inp (corner_row_LUT inp.keypointsBy_y inp.imageHeight)
            (List.range' (k + 1) m) r.1 (acc ++ r.2.toList)) = _
      rw [hps]
      rfl
    rw [hstep, ih (k + 1) (by omega) (acc ++ [(⟨k, k, 0⟩ : MatchRecord)])]
    have hgoal : (acc ++ [(⟨k, k, 0⟩ : MatchRecord)])
          ++ (List.range' (k + 1) m).map (fun i => (⟨i, i, 0⟩ : MatchRecord))
        = acc ++ (k :: List.range' (k + 1) m).map (fun i => (⟨i, i, 0⟩ : MatchRecord)) := by
      simp
    exact congrArg some hgoal

-- ## Claim C7 (corrected)

set_option maxHeartbeats 2000000 in
/-- C7 counterexample: `inpTwin` is an identity scenario (predictions equal
the source positions, the target frame's keypoints and descriptors equal the
source frame's), but the two keypoints also share one descriptor; the greedy
scan then matches source keypoint 0 to target keypoint 1 (the row-sorted
scan order reaches index 1 first and ties are not overtaken), so not every
source keypoint is matched to itself.  The abort-aware model agrees: the run
completes (every fatal check passes at this input) with the same crossed
matches, so the mismatch is not an artefact of ignoring the aborts. -/
theorem c7_counterexample :
    inpTwin.descriptorsKp1 = inpTwin.descriptorsK
    ∧ predictedOf inpTwin 0 = (0, 1)
    ∧ predictedOf inpTwin 1 = (0, 0)
    ∧ matchFeatures inpTwin = [⟨1, 0, 0⟩, ⟨0, 1, 0⟩]
    ∧ matchFeaturesChecked inpTwin = some [⟨1, 0, 0⟩, ⟨0, 1, 0⟩]
    ∧ (⟨1, 0, 0⟩ : MatchRecord).index_kp1 ≠ (⟨1, 0, 0⟩ : MatchRecord).index_k := by
  refine ⟨rfl, by decide, by decide, ?_, ?_, by decide⟩
  · norm_num [matchFeatures, matchLoop, processSource, finalScan, narrowScan,
      narrowCandidates, nearCandidates, windowSlice, corner_row_LUT, lutFrom,
      advanceCursor, nearestTop, nearestBottom, nearTop, nearBottom,
      idxNearestLow, idxNearestHigh, idxNearLow, idxNearHigh, heightBound,
      predictedOf, boundLeftNearest, boundRightNearest, boundLeftNear,
      boundRightNear, initScanState, initialBestScore, narrowStep, wideStep,
      acceptStep, scoreCandidate, hammingDistance512, popcnt, popcntLoop,
      updateFlag, cppTrunc, clamp, List.foldl, inpTwin, kpsPair]
  · norm_num [matchFeaturesChecked, matchLoopChecked, processSourceChecked,
      finalScanChecked, narrowScanChecked, scanLoopChecked, windowChecksPass,
      narrowStepChecked, wideStepChecked, acceptStepChecked, normSq,
      narrowCandidates, nearCandidates, windowSlice, corner_row_LUT, lutFrom,
      advanceCursor, nearestTop, nearestBottom, nearTop, nearBottom,
      idxNearestLow, idxNearestHigh, idxNearLow, idxNearHigh, heightBound,
      predictedOf, boundLeftNearest, boundRightNearest, boundLeftNear,
      boundRightNear, initScanState, initialBestScore,
      scoreCandidate, hammingDistance512, popcnt, popcntLoop,
      updateFlag, cppTrunc, clamp, inpTwin, kpsPair]

/-- C7 amended: in the identity scenario (predicted position of every source
keypoint equals its own position, frame k+1's keypoints and descriptors equal
frame k's), the run completes without hitting any fatal check and every
source keypoint is matched to itself with Hamming distance 0 PROVIDED the
descriptors of distinct keypoints are pairwise distinct, every keypoint lies
at nonnegative column and at a row in `[0, image_height - 1)`, the small
search radius is at least 4 pixels (so that every candidate inside the small
window is nearer to the prediction than twice the radius and the
acceptance-distance check of line 167 cannot fire), the large search radius
is nonnegative, the threshold fraction is below one, and the descriptor
width is between 1 and 64 bytes (line 70 requires at most 512 bits). -/
theorem c7_identity_amended (inp : MatchingInput)
    (hs : SortedByY inp.keypointsBy_y)
    (hlen : inp.keypointsBy_y.length = inp.numPointsK)
    (hidx : ∀ kd ∈ inp.keypointsBy_y, kd.index < inp.numPointsK)
    (hnodup : (inp.keypointsBy_y.map fun kd => kd.index).Nodup)
    (hpred : ∀ kd ∈ inp.keypointsBy_y, predictedOf inp kd.index = (kd.mx, kd.my))
    (hdesc : inp.descriptorsKp1 = inp.descriptorsK)
    (hdlen : ∀ kd ∈ inp.keypointsBy_y,
      (inp.descriptorsK.getD kd.index []).length = inp.descriptorSizeBytes)
    (hdd : ∀ a ∈ inp.keypointsBy_y, ∀ b ∈ inp.keypointsBy_y, a.index ≠ b.index →
      inp.descriptorsK.getD a.index [] ≠ inp.descriptorsK.getD b.index [])
    (hrow : ∀ kd ∈ inp.keypointsBy_y, 0 ≤ kd.my ∧ kd.my < (inp.imageHeight : ℚ) - 1)
    (hcol : ∀ kd ∈ inp.keypointsBy_y, 0 ≤ kd.mx)
    (hsmall : 4 ≤ inp.smallSearchDistance)
    (hlarge : 0 ≤ inp.largeSearchDistance)
    (hfrac : inp.thresholdBitsFrac < 1)
    (hL : 1 ≤ inp.descriptorSizeBytes)
    (hbits : inp.descriptorSizeBytes * 8 ≤ 512) :
    matchFeaturesChecked inp
      = some ((List.range inp.numPointsK).map (fun i => ⟨i, i, 0⟩))
    ∧ matchFeatures inp = (List.range inp.numPointsK).map (fun i => ⟨i, i, 0⟩)
    ∧ ∀ i < inp.numPointsK, hammingDistance512 inp.descriptorSizeBytes
        (inp.descriptorsK.getD i []) (inp.descriptorsKp1.getD i []) = 0 := by
  have hsmall1 : 1 ≤ inp.smallSearchDistance := by linarith
  refine ⟨?_, ?_, ?_⟩
  · unfold matchFeaturesChecked
    rw [if_pos hbits]
    have h0 : (fun _ : Nat => false) = (fun j => decide (j < 0)) := by
      funext j; simp
    rw [h0, List.range_eq_range']
    have := matchLoopChecked_identity inp hs hlen hidx hnodup hpred hdesc hdlen hdd
      hrow hcol hsmall hlarge hfrac hL inp.numPointsK 0 (by omega) []
    simpa [List.range_eq_range'] using this
  · unfold matchFeatures
    have h0 : (fun _ : Nat => false) = (fun j => decide (j < 0)) := by
      funext j; simp
    rw [h0, List.range_eq_range']
    have := matchLoop_identity inp hs hlen hidx hnodup hpred hdesc hdlen hdd
      hrow hcol hsmall1 hfrac hL inp.numPointsK 0 (by omega) []
    simpa [List.range_eq_range'] using this
  · intro i _
    rw [hdesc, hammingDistance512_self]

theorem c7_witness :
    matchFeaturesChecked inpIdentityWide
      = some ((List.range inpIdentityWide.numPointsK).map (fun i => ⟨i, i, 0⟩))
    ∧ matchFeatures inpIdentityWide
      = (List.range inpIdentityWide.numPointsK).map (fun i => ⟨i, i, 0⟩)
    ∧ hammingDistance512 inpIdentityWide.descriptorSizeBytes
        (inpIdentityWide.descriptorsK.getD 0 [])
        (inpIdentityWide.descriptorsKp1.getD 0 []) = 0 := by
  have h := c7_identity_amended inpIdentityWide
    (by norm_num [SortedByY, inpIdentityWide, inpTwin, kpsPair])
    (by decide) (by decide) (by decide) (by decide) rfl (by decide) (by decide)
    (by norm_num [inpIdentityWide, inpTwin, kpsPair])
    (by decide) (by norm_num [inpIdentityWide, inpTwin])
    (by norm_num [inpIdentityWide, inpTwin])
    (by norm_num [inpIdentityWide, inpTwin]) (by decide) (by decide)
  exact ⟨h.1, h.2.1, h.2.2 0 (by decide)⟩

end GyroTracker
